import Mathlib

/-!
# ServerGo: emote ingest, deletion and channel enablement

A shallow embedding of the parts of `zneix/ServerGo` that decide the stated
properties of the emote pipeline:

* `getGifDimensions` and the ingest handler registered by `CreateRoute`
  (`src/server/api/v2/emotes/create.go`),
* `DeleteEmote` (`src/server/api/v2/gql/resolvers/mutation/emote-delete.go`),
* `AddChannelEmote` (`src/server/api/v2/gql/resolvers/mutate-channel-emote.go`).

Go's `int` is the 64-bit signed integer of the server's targets; it is embedded
as `Int` and the one arithmetic result that can leave the range (a difference of
two coordinates) is wrapped explicitly with `wrapInt64`.
-/

namespace ServerGo

/-! ## Machine integers -/

/-- Two's-complement wrap of a mathematical integer into Go's 64-bit `int`. -/
def wrapInt64 (z : Int) : Int := (z + 2 ^ 63) % 2 ^ 64 - 2 ^ 63

/-- The values a Go `int` can hold. -/
def IsInt64 (z : Int) : Prop := -(2 ^ 63) ≤ z ∧ z < 2 ^ 63

instance (z : Int) : Decidable (IsInt64 z) := by
  unfold IsInt64; infer_instance

/-! ## `image` geometry and `gif.GIF` -/

/-- Go `image.Point`. -/
structure Point where
  X : Int
  Y : Int
  deriving DecidableEq, Repr

/-- Go `image.Rectangle`: the half-open box from `Min` to `Max`. -/
structure Rectangle where
  Min : Point
  Max : Point
  deriving DecidableEq, Repr

/-- Go `image.Paletted`, reduced to the field `getGifDimensions` reads. -/
structure Paletted where
  Rect : Rectangle
  deriving DecidableEq, Repr

/-- Go `gif.GIF`, reduced to its frame list `Image`. -/
structure GIF where
  Image : List Paletted
  deriving DecidableEq, Repr

/-- A frame given by its four edges `(left, top)-(right, bottom)`. -/
def frame (l t r b : Int) : Paletted := ⟨⟨⟨l, t⟩, ⟨r, b⟩⟩⟩

/-- The four running variables of the loop of `getGifDimensions`. -/
structure Extent where
  leastX : Int
  leastY : Int
  mostX : Int
  mostY : Int
  deriving DecidableEq, Repr

/-- One iteration of `for _, img := range gif.Image` (create.go 359-372). -/
def extentStep (acc : Extent) (img : Paletted) : Extent :=
  let leastX := if img.Rect.Min.X < acc.leastX then img.Rect.Min.X else acc.leastX
  let leastY := if img.Rect.Min.Y < acc.leastY then img.Rect.Min.Y else acc.leastY
  let mostX := if img.Rect.Max.X > acc.mostX then img.Rect.Max.X else acc.mostX
  let mostY := if img.Rect.Max.Y > acc.mostY then img.Rect.Max.Y else acc.mostY
  ⟨leastX, leastY, mostX, mostY⟩

/-- The loop of `getGifDimensions`: the four variables start at Go's zero value. -/
def gifExtent (gif : GIF) : Extent :=
  gif.Image.foldl extentStep ⟨0, 0, 0, 0⟩

/-- `getGifDimensions` (create.go 353-375): `mostX - leastX, mostY - leastY`
in Go's wrapping `int` arithmetic. -/
def getGifDimensions (gif : GIF) : Int × Int :=
  let e := gifExtent gif
  (wrapInt64 (e.mostX - e.leastX), wrapInt64 (e.mostY - e.leastY))

/-! ### Bounding boxes, as the specification words them -/

/-- Minimum of `Rect.Min.X` over all frames (of a non-empty list; `none` if empty). -/
def minLeft (gif : GIF) : Option Int := (gif.Image.map (·.Rect.Min.X)).min?

/-- Minimum of `Rect.Min.Y` over all frames. -/
def minTop (gif : GIF) : Option Int := (gif.Image.map (·.Rect.Min.Y)).min?

/-- Maximum of `Rect.Max.X` over all frames. -/
def maxRight (gif : GIF) : Option Int := (gif.Image.map (·.Rect.Max.X)).max?

/-- Maximum of `Rect.Max.Y` over all frames. -/
def maxBottom (gif : GIF) : Option Int := (gif.Image.map (·.Rect.Max.Y)).max?

/-- The size of the bounding box spanning every frame's rectangle, as the
specification words it (exact integers, no origin). -/
def frameBoundingBox (gif : GIF) : Option (Int × Int) :=
  match minLeft gif, minTop gif, maxRight gif, maxBottom gif with
  | some l, some t, some r, some b => some (r - l, b - t)
  | _, _, _, _ => none

/-- Minimum of `0` and every frame's left edge. -/
def originMinLeft (gif : GIF) : Int := (gif.Image.map (·.Rect.Min.X)).foldr min 0

/-- Minimum of `0` and every frame's top edge. -/
def originMinTop (gif : GIF) : Int := (gif.Image.map (·.Rect.Min.Y)).foldr min 0

/-- Maximum of `0` and every frame's right edge. -/
def originMaxRight (gif : GIF) : Int := (gif.Image.map (·.Rect.Max.X)).foldr max 0

/-- Maximum of `0` and every frame's bottom edge. -/
def originMaxBottom (gif : GIF) : Int := (gif.Image.map (·.Rect.Max.Y)).foldr max 0

/-! ## Identities, records and the record store -/

/-- The 12-byte `primitive.ObjectID`, read as a big-endian number. -/
abbrev ObjectID := Nat

/-- One lower-case hexadecimal digit, as `encoding/hex` prints it. -/
def hexDigit (n : Nat) : Char :=
  if n % 16 < 10 then Char.ofNat (48 + n % 16) else Char.ofNat (87 + n % 16)

/-- The method `ObjectID.Hex()`: the 24 lower-case hexadecimal digits of the 12 bytes. -/
def Hex (id : ObjectID) : String :=
  String.mk ((List.range 24).reverse.map fun i => hexDigit (id / 16 ^ i))

/-- Value of one hexadecimal digit, either case, as `encoding/hex` reads it. -/
def hexVal (c : Char) : Option Nat :=
  if 48 ≤ c.toNat ∧ c.toNat ≤ 57 then some (c.toNat - 48)
  else if 97 ≤ c.toNat ∧ c.toNat ≤ 102 then some (c.toNat - 87)
  else if 65 ≤ c.toNat ∧ c.toNat ≤ 70 then some (c.toNat - 55)
  else none

/-- The library call `primitive.ObjectIDFromHex`: exactly 24 hexadecimal digits,
otherwise an error (`none`). -/
def ObjectIDFromHex (s : String) : Option ObjectID :=
  if s.length ≠ 24 then none
  else s.data.foldlM (fun acc c => (hexVal c).map fun v => acc * 16 + v) 0

/-- The lifecycle constants of `datastructure` the sources name, and any other
value of the underlying `int32`. -/
inductive EmoteStatus where
  | Deleted
  | Processing
  | Live
  | Other (code : Int)
  deriving DecidableEq, Repr

/-- Modelled from the spec: the `datastructure` package is not among the sources;
section 3 makes visibility a bitset of independent flags, so the flag
`EmoteVisibilityPrivate` is a single bit (its position is immaterial below). -/
def EmoteVisibilityPrivate : Nat := 1

/-- Modelled from the spec: the flag `EmoteVisibilityHidden`, a single bit distinct
from `EmoteVisibilityPrivate` (section 3: independent boolean attributes). -/
def EmoteVisibilityHidden : Nat := 4

/-- The fields of `datastructure.Emote` that the three handlers read or write. -/
structure Emote where
  ID : ObjectID
  Name : String
  Mime : String
  Status : EmoteStatus
  Tags : List String
  Visibility : Nat
  OwnerID : ObjectID
  Width : List Int
  Height : List Int
  SharedWith : List ObjectID
  deriving DecidableEq, Repr

/-- The role permissions the handlers ask for. -/
inductive RolePermission where
  | EmoteCreate
  | EmoteEditAll
  | ManageUsers
  deriving DecidableEq, Repr

/-- The fields of `datastructure.User` the handlers read or write; `Permissions`
lists the permissions for which `HasPermission` answers yes. -/
structure User where
  ID : ObjectID
  DisplayName : String
  EditorIDs : List ObjectID
  EmoteIDs : List ObjectID
  Permissions : List RolePermission
  deriving DecidableEq, Repr

/-- The method `usr.HasPermission(p)` (and `datastructure.UserHasPermission`). -/
def User.HasPermission (usr : User) (p : RolePermission) : Bool :=
  decide (p ∈ usr.Permissions)

/-- The `InsertedID` of an insert: an `interface{}` that either is a
`primitive.ObjectID` or is not. -/
inductive DocID where
  | oid (id : ObjectID)
  | other (raw : Nat)
  deriving DecidableEq, Repr

/-- A document of the `emotes` collection: its `_id` and the stored fields. -/
structure EmoteDoc where
  key : DocID
  emote : Emote
  deriving DecidableEq, Repr

/-- An entry of the `audit` collection: type (`Kind`), actor, target and reason. -/
structure AuditLog where
  Kind : String
  CreatedBy : ObjectID
  Target : ObjectID
  Reason : Option String
  deriving DecidableEq, Repr

/-- The record store: the collections `emotes`, `users` and `audit`. -/
structure DB where
  emotes : List EmoteDoc
  users : List User
  audit : List AuditLog
  deriving DecidableEq, Repr

/-- The document `Decode` yields for a stored emote: the `_id` fills `ID`. -/
def EmoteDoc.decode (d : EmoteDoc) (id : ObjectID) : Emote := { d.emote with ID := id }

/-- `emotes.FindOne({_id: id, status: {$ne: Deleted}})`. -/
def DB.findEmoteNotDeleted (db : DB) (id : ObjectID) : Option Emote :=
  (db.emotes.find? fun d => decide (d.key = DocID.oid id ∧ d.emote.Status ≠ EmoteStatus.Deleted)).map
    fun d => d.decode id

/-- `emotes.FindOne({_id: id, status: Live})`. -/
def DB.findEmoteLive (db : DB) (id : ObjectID) : Option Emote :=
  (db.emotes.find? fun d => decide (d.key = DocID.oid id ∧ d.emote.Status = EmoteStatus.Live)).map
    fun d => d.decode id

/-- `users.FindOne({_id: channel, editors: editor})`. -/
def DB.findEditor (db : DB) (channel editor : ObjectID) : Option User :=
  db.users.find? fun u => decide (u.ID = channel ∧ editor ∈ u.EditorIDs)

/-- `users.FindOne({_id: channel})`. -/
def DB.findUser (db : DB) (channel : ObjectID) : Option User :=
  db.users.find? fun u => decide (u.ID = channel)

/-- `emotes.InsertOne(doc)` with `_id = key`: refused (duplicate key) when a
document has that `_id` already. -/
def DB.insertEmote (db : DB) (key : DocID) (e : Emote) : Option DB :=
  if db.emotes.any (fun d => decide (d.key = key)) then none
  else some { db with emotes := db.emotes ++ [⟨key, e⟩] }

/-- `emotes.DeleteOne({_id: key})`: removes the first matching document. -/
def DB.deleteEmote (db : DB) (key : DocID) : DB :=
  { db with emotes := db.emotes.eraseP fun d => decide (d.key = key) }

/-- Sets the status of the first element that `p` selects. -/
def setFirst (p : EmoteDoc → Bool) (s : EmoteStatus) : List EmoteDoc → List EmoteDoc
  | [] => []
  | d :: ds =>
    if p d then { d with emote := { d.emote with Status := s } } :: ds
    else d :: setFirst p s ds

/-- `emotes.UpdateOne({_id: id}, {$set: {status: s}})`: the filter is the `_id`
alone; no document matching is not an error. -/
def DB.setEmoteStatus (db : DB) (id : ObjectID) (s : EmoteStatus) : DB :=
  { db with emotes := setFirst (fun d => decide (d.key = DocID.oid id)) s db.emotes }

/-- `users.UpdateMany({emotes: id}, {$pull: {emotes: id}})`. -/
def DB.pullEmote (db : DB) (id : ObjectID) : DB :=
  { db with users := db.users.map fun u => { u with EmoteIDs := u.EmoteIDs.filter fun e => e != id } }

/-- `users.FindOneAndUpdate({_id: channel}, {$set: {emotes: ids}})`, returning
the document after the update. -/
def DB.setUserEmotes (db : DB) (channel : ObjectID) (ids : List ObjectID) : DB × Option User :=
  match db.findUser channel with
  | none => (db, none)
  | some u =>
    let u1 : User := { u with EmoteIDs := ids }
    ({ db with users := db.users.map fun v => if v = u then u1 else v }, some u1)

/-- `audit.InsertOne(entry)`. -/
def DB.insertAudit (db : DB) (a : AuditLog) : DB :=
  { db with audit := db.audit ++ [a] }

/-- The status stored under `_id = id`, if a document has that `_id`. -/
def DB.statusOf (db : DB) (id : ObjectID) : Option EmoteStatus :=
  (db.emotes.find? fun d => decide (d.key = DocID.oid id)).map fun d => d.emote.Status

/-- The calls a handler makes on its collaborators, in program order (calls made
from goroutines are listed in the order the goroutines are started). -/
inductive Event where
  | MkdirAll
  | RemoveAll
  | UsersFindEditor (channel editor : ObjectID)
  | UsersFind (channel : ObjectID)
  | EmotesFindNotDeleted (id : ObjectID)
  | EmotesFindLive (id : ObjectID)
  | GetSizeRatio (ogWidth ogHeight : Int) (size : String)
  | Convert (scope : String) (width height : Int)
  | EmotesInsert (e : Emote) (inserted : Option DocID)
  | EmotesDelete (key : DocID)
  | ReadFile (path : String)
  | UploadFile (key : String)
  | EmotesSetStatus (id : ObjectID) (s : EmoteStatus)
  | AuditInsert (a : AuditLog)
  | Expire (obj : String) (i : Nat)
  | UsersPull (id : ObjectID)
  | UsersSetEmotes (channel : ObjectID) (ids : List ObjectID)
  | BanLookup (channel : ObjectID)
  | Publish (channel : ObjectID) (emote : ObjectID)
  | Discord (emote : ObjectID)
  deriving DecidableEq, Repr

/-! ## The ingest handler of `CreateRoute` -/

/-- The frame ceiling `MAX_FRAME_COUNT` (create.go 34). -/
def MAX_FRAME_COUNT : Nat := 1024

/-- Conversion `int16(v)`: two's-complement truncation to 16 bits. -/
def wrapInt16 (z : Int) : Int := (z + 2 ^ 15) % 2 ^ 16 - 2 ^ 15

/-- The method `Rectangle.Dx()`. -/
def Rectangle.Dx (r : Rectangle) : Int := wrapInt64 (r.Max.X - r.Min.X)

/-- The method `Rectangle.Dy()`. -/
def Rectangle.Dy (r : Rectangle) : Int := wrapInt64 (r.Max.Y - r.Min.Y)

/-- The `error` of a read, as far as the handler tells values apart:
`nil`, `io.EOF`, or anything else. -/
inductive ReadErr where
  | nil
  | EOF
  | other
  deriving DecidableEq, Repr

/-- One part of the multipart body, with what the handler can observe of it:
form name, file name, `Content-Type` header, the outcome of the single
`part.Read(buf)` done for a text field (`B2S(buf[:n])` and `err`), whether
`os.Create` fails while this part is handled, and for each pass of the copy
loop the `err` of `part.Read(data)` and whether `osFile.Write` fails. -/
structure Part where
  FormName : String
  FileName : String
  ContentType : String
  Read : String × ReadErr
  CreateErr : Bool
  Chunks : List (ReadErr × Bool)
  deriving DecidableEq, Repr

/-- One entry of `EmoteUtil.GetFilesMeta`: `file[0]` (path without extension),
`file[1]` (scope) and `file[2]` (the box, as `WxH`). -/
structure FileMeta where
  path : String
  scope : String
  size : String
  deriving DecidableEq, Repr

/-- Everything outside the handler that one run of it observes: the request,
the outcomes of the operating-system, decoder, transcoder, storage and store
calls that the store's contents do not determine, and the functions of packages
that are not among the sources (`validation.ValidateEmoteName`,
`EmoteUtil.GetFilesMeta`, `utils.GetSizeRatio`). `GetFilesMeta` yields at most
the four tiers that `sizeX` and `sizeY` have room for. -/
structure CreateEnv where
  usr : Option User
  IsBodyStream : Bool
  MkdirErr : Bool
  Parts : List (Option Part)
  ValidateEmoteName : String → Bool
  EditorFindErr : Bool
  OpenErr : Bool
  JpegDecode : Option Rectangle
  PngDecode : Option Rectangle
  GifDecodeAll : Option GIF
  Files : List FileMeta
  files_le : Files.length ≤ 4
  GetSizeRatio : Int → Int → String → Int × Int
  ConvertErr : Nat → Bool
  InsertErr : Bool
  InsertedID : DocID
  ReadFileErr : Nat → Bool
  UploadErr : Nat → Bool
  DeleteErr : Bool
  UpdateErr : Bool

/-- What a handler run leaves behind: the HTTP status, the detail of the body,
the calls made, and the store afterwards. -/
structure Response where
  status : Nat
  body : String
  trace : List Event
  db : DB
  deriving DecidableEq, Repr

/-- Puts the calls made before and after a stage around its own. -/
def Response.within (pre : List Event) (r : Response) (post : List Event) : Response :=
  { r with trace := pre ++ r.trace ++ post }

/-- Scan of `filepath.Ext` from the end of the path: `rev` is what is left,
reversed; `acc` is what has been passed. -/
def extScan : List Char → List Char → List Char
  | [], _ => []
  | c :: rev, acc =>
    if c = '/' then []
    else if c = '.' then '.' :: acc
    else extScan rev (c :: acc)

/-- The library call `filepath.Ext`: the suffix from the last dot of the last
path element, empty if there is none. -/
def filepathExt (path : String) : String := String.mk (extScan path.data.reverse [])

/-- The library call `strings.TrimSuffix`. -/
def TrimSuffix (s suffix : String) : String :=
  if suffix.data.isSuffixOf s.data then String.mk (s.data.take (s.data.length - suffix.data.length))
  else s

/-- The variables the part loop assigns (create.go 62-66), and whether the
original file exists in the scratch directory. -/
structure Form where
  emoteName : String
  channelID : ObjectID
  contentType : String
  ext : String
  created : Bool
  deriving DecidableEq, Repr

/-- The `switch contentType` of create.go 118-127. -/
def extOf (contentType : String) : Option String :=
  if contentType = "image/jpeg" then some "jpg"
  else if contentType = "image/png" then some "png"
  else if contentType = "image/gif" then some "gif"
  else none

/-- The copy loop of create.go 135-150; an early return is `some status`.
A reader that has nothing left answers `io.EOF`. -/
def copyLoop : List (ReadErr × Bool) → Option Nat
  | [] => none
  | (err, writeErr) :: rest =>
    if err = ReadErr.other then some 400
    else if writeErr then some 500
    else if err = ReadErr.EOF then none
    else copyLoop rest

/-- One iteration of the part loop (create.go 83-151); `none` is a failed
`mr.NextPart()`, an error is an early return with that status and detail. -/
def readPart (env : CreateEnv) (st : Form) : Option Part → Except (Nat × String) Form
  | none => Except.ok st
  | some part =>
    if part.FormName = "name" then
      if part.Read.2 = ReadErr.other then Except.error (400, "We couldn't read the name.")
      else if !env.ValidateEmoteName part.Read.1 then Except.error (400, "Invalid Emote Name")
      else Except.ok { st with emoteName := part.Read.1 }
    else if part.FormName = "channel" then
      if part.Read.2 = ReadErr.other then Except.error (400, "We couldn't read the channel ID.")
      else
        match ObjectIDFromHex part.Read.1 with
        | none => Except.error (400, "The channel ID is not valid.")
        | some id => Except.ok { st with channelID := id }
    else if part.FormName = "emote" then
      let emoteName :=
        if st.emoteName = "" then TrimSuffix part.FileName (filepathExt part.FileName)
        else st.emoteName
      match extOf part.ContentType with
      | none =>
        Except.error (400, "The file content type is not supported. It must be one of jpg, png or gif")
      | some ext =>
        if part.CreateErr then Except.error (500, "")
        else
          match copyLoop part.Chunks with
          | some status => Except.error (status, if status = 400 then "We failed to read the file." else "")
          | none =>
            Except.ok { st with
              emoteName := emoteName, contentType := part.ContentType, ext := ext, created := true }
    else Except.ok st

/-- The part loop `for i := 0; i < 3; i++` (create.go 81-152): three calls of
`mr.NextPart()`, a call past the end of `Parts` failing. -/
def readParts (env : CreateEnv) (usr : User) : Except (Nat × String) Form := do
  let st0 : Form := ⟨"", usr.ID, "", "", false⟩
  let st1 ← readPart env st0 (env.Parts.getD 0 none)
  let st2 ← readPart env st1 (env.Parts.getD 1 none)
  readPart env st2 (env.Parts.getD 2 none)

/-- The editor check of create.go 158-171: the calls made, and the early return
if there is one. -/
def authorize (env : CreateEnv) (usr : User) (db : DB) (channelID : ObjectID) :
    List Event × Option (Nat × String) :=
  if !usr.HasPermission RolePermission.ManageUsers then
    if Hex channelID != Hex usr.ID then
      if env.EditorFindErr then ([Event.UsersFindEditor channelID usr.ID], some (500, ""))
      else
        match db.findEditor channelID usr.ID with
        | none =>
          ([Event.UsersFindEditor channelID usr.ID], some (403, "You don't have permission to do that."))
        | some _ => ([Event.UsersFindEditor channelID usr.ID], none)
    else ([], none)
  else ([], none)

/-- The decoding `switch ext` of create.go 179-211: `ogWidth, ogHeight`, or an
early return. -/
def decode (env : CreateEnv) (ext : String) : Except (Nat × String) (Int × Int) :=
  if ext = "jpg" then
    match env.JpegDecode with
    | none => Except.error (500, "")
    | some bounds => Except.ok (bounds.Dx, bounds.Dy)
  else if ext = "png" then
    match env.PngDecode with
    | none => Except.error (500, "")
    | some bounds => Except.ok (bounds.Dx, bounds.Dy)
  else if ext = "gif" then
    match env.GifDecodeAll with
    | none => Except.error (500, "")
    | some g =>
      if g.Image.length > MAX_FRAME_COUNT then
        Except.error (400, "Your GIF exceeds the maximum amount of frames permitted. (1024)")
      else Except.ok (getGifDimensions g)
  else Except.ok (0, 0)

/-- The arrays `sizeX` and `sizeY` (create.go 216-217). -/
structure Sizes where
  sizeX : List Int
  sizeY : List Int
  deriving DecidableEq, Repr

/-- The resize loop of create.go 219-258 from index `i` on: the calls made and
the arrays, or `none` when a `convert` run fails (status 500). -/
def resize (env : CreateEnv) (ogWidth ogHeight : Int) :
    Nat → List FileMeta → Sizes → List Event × Option Sizes
  | _, [], sz => ([], some sz)
  | i, file :: rest, sz =>
    let wh := env.GetSizeRatio ogWidth ogHeight file.size
    let sz1 : Sizes := ⟨sz.sizeX.set i (wrapInt16 wh.1), sz.sizeY.set i (wrapInt16 wh.2)⟩
    let evs := [Event.GetSizeRatio ogWidth ogHeight file.size, Event.Convert file.scope wh.1 wh.2]
    if env.ConvertErr i then (evs, none)
    else
      let r := resize env ogWidth ogHeight (i + 1) rest sz1
      (evs ++ r.1, r.2)

/-- One upload goroutine (create.go 297-310): the calls it makes and whether it
sets `errored`. -/
def uploadOne (env : CreateEnv) (_id : ObjectID) (i : Nat) (path : FileMeta) : List Event × Bool :=
  if env.ReadFileErr i then ([Event.ReadFile (path.path ++ ".webp")], true)
  else
    ([Event.ReadFile (path.path ++ ".webp"),
      Event.UploadFile ("emote/" ++ Hex _id ++ "/" ++ path.scope)], env.UploadErr i)

/-- The upload fan-out and `wg.Wait()` (create.go 296-313) from index `i` on:
all calls, and the value of `errored` after the join. -/
def uploadAll (env : CreateEnv) (_id : ObjectID) : Nat → List FileMeta → List Event × Bool
  | _, [] => ([], false)
  | i, path :: rest =>
    let r := uploadOne env _id i path
    let rs := uploadAll env _id (i + 1) rest
    (r.1 ++ rs.1, r.2 || rs.2)

/-- The record built at create.go 263-273. -/
def newEmote (emoteName : String) (channelID : ObjectID) (sz : Sizes) : Emote :=
  { ID := 0, Name := emoteName, Mime := "image/webp", Status := EmoteStatus.Processing,
    Tags := [], Visibility := EmoteVisibilityPrivate ||| EmoteVisibilityHidden,
    OwnerID := channelID, Width := sz.sizeX, Height := sz.sizeY, SharedWith := [] }

/-- The commit of create.go 263-350: insert, identity check, uploads, and the
compensating delete or the update to Live. -/
def commit (env : CreateEnv) (db : DB) (emoteName : String) (channelID : ObjectID) (sz : Sizes) :
    Response :=
  let emote := newEmote emoteName channelID sz
  if env.InsertErr then ⟨500, "", [Event.EmotesInsert emote none], db⟩
  else
    match db.insertEmote env.InsertedID emote with
    | none => ⟨500, "", [Event.EmotesInsert emote none], db⟩
    | some db1 =>
      match env.InsertedID with
      | DocID.other raw =>
        ⟨500, "", [Event.EmotesInsert emote (some (DocID.other raw)), Event.EmotesDelete (DocID.other raw)],
          if env.DeleteErr then db1 else db1.deleteEmote (DocID.other raw)⟩
      | DocID.oid _id =>
        let up := uploadAll env _id 0 env.Files
        if up.2 then
          ⟨500, "", [Event.EmotesInsert emote (some (DocID.oid _id))] ++ up.1 ++ [Event.EmotesDelete (DocID.oid _id)],
            if env.DeleteErr then db1 else db1.deleteEmote (DocID.oid _id)⟩
        else
          ⟨201, "\x7b\"status\":201,\"id\":\"" ++ Hex _id ++ "\"\x7d",
            [Event.EmotesInsert emote (some (DocID.oid _id))] ++ up.1 ++
              [Event.EmotesSetStatus _id EmoteStatus.Live, Event.Discord _id],
            if env.UpdateErr then db1 else db1.setEmoteStatus _id EmoteStatus.Live⟩

/-- From the decoded dimensions to the end (create.go 213-350). -/
def process (env : CreateEnv) (db : DB) (st : Form) (ogWidth ogHeight : Int) : Response :=
  match resize env ogWidth ogHeight 0 env.Files ⟨[0, 0, 0, 0], [0, 0, 0, 0]⟩ with
  | (evs, none) => ⟨500, "", evs, db⟩
  | (evs, some sz) => (commit env db st.emoteName st.channelID sz).within evs []

/-- The handler between `os.MkdirAll` and the deferred `os.RemoveAll`
(create.go 80-350). -/
def ingest (env : CreateEnv) (usr : User) (db : DB) : Response :=
  match readParts env usr with
  | Except.error (status, detail) => ⟨status, detail, [], db⟩
  | Except.ok st =>
    if st.emoteName = "" then ⟨400, "The fields were not provided.", [], db⟩
    else
      match authorize env usr db st.channelID with
      | (evs, some (status, detail)) => ⟨status, detail, evs, db⟩
      | (evs, none) =>
        if !st.created || env.OpenErr then ⟨500, "", evs, db⟩
        else
          match decode env st.ext with
          | Except.error (status, detail) => ⟨status, detail, evs, db⟩
          | Except.ok (ogWidth, ogHeight) => (process env db st ogWidth ogHeight).within evs []

/-- The handler that `CreateRoute` registers (create.go 43-350). -/
def CreateRoute (env : CreateEnv) (db : DB) : Response :=
  match env.usr with
  | none => ⟨500, "", [], db⟩
  | some usr =>
    if !usr.HasPermission RolePermission.EmoteCreate then
      ⟨403, "You don't have permission to do that.", [], db⟩
    else if !env.IsBodyStream then ⟨400, "You did not provide an upload stream.", [], db⟩
    else if env.MkdirErr then ⟨500, "", [Event.MkdirAll], db⟩
    else (ingest env usr db).within [Event.MkdirAll] [Event.RemoveAll]

/-! ## `DeleteEmote` -/

/-- The errors the two resolvers return: the package's named errors, and an
error of the store handed on as it is (`Raw`). -/
inductive ResolverError where
  | ErrNoReason
  | ErrLoginRequired
  | ErrUnknownEmote
  | ErrUnknownChannel
  | ErrChannelBanned
  | ErrAccessDenied
  | ErrInternalServer
  | ErrDepth
  | Raw
  deriving DecidableEq, Repr

/-- The arguments of `DeleteEmote`. -/
structure DeleteArgs where
  ID : String
  Reason : String
  deriving DecidableEq, Repr

/-- What one call of `DeleteEmote` observes besides the store's contents: the
user in the context, and which collaborator calls fail (`FindErr`: the find or
its `Decode` fails otherwise than with `ErrNoDocuments`). -/
structure DeleteEnv where
  usr : Option User
  FindErr : Bool
  EditorFindErr : Bool
  UpdateErr : Bool
  AuditErr : Bool
  ExpireErr : Nat → Bool
  PullErr : Bool

/-- What a resolver call leaves behind: the returned pair `(value, error)`,
the calls made, and the store afterwards. -/
structure Outcome (α : Type) where
  result : Except ResolverError α
  trace : List Event
  db : DB

/-- The owner-or-editor check of emote-delete.go 63-76: the calls made and the
error returned, if any. -/
def deleteAuth (env : DeleteEnv) (usr : User) (db : DB) (emote : Emote) :
    List Event × Option ResolverError :=
  if !usr.HasPermission RolePermission.EmoteEditAll then
    if Hex emote.OwnerID != Hex usr.ID then
      if env.EditorFindErr then
        ([Event.UsersFindEditor emote.OwnerID usr.ID], some ResolverError.ErrInternalServer)
      else
        match db.findEditor emote.OwnerID usr.ID with
        | none => ([Event.UsersFindEditor emote.OwnerID usr.ID], some ResolverError.ErrAccessDenied)
        | some _ => ([Event.UsersFindEditor emote.OwnerID usr.ID], none)
    else ([], none)
  else ([], none)

/-- The fan-out `for i := 1; i <= 4; i++` of emote-delete.go 108-117: one
`aws.Expire` per tier on the object `emote/<hex>`; a failure is logged only. -/
def expireAll (emote : Emote) : List Event :=
  (List.range' 1 4).map fun i => Event.Expire ("emote/" ++ Hex emote.ID) i

/-- The audit entry of emote-delete.go 92-100. -/
def deleteAudit (usr : User) (id : ObjectID) (reason : String) : AuditLog :=
  ⟨"EmoteDelete", usr.ID, id, some reason⟩

/-- The resolver `DeleteEmote` (emote-delete.go 21-135). -/
def DeleteEmote (env : DeleteEnv) (args : DeleteArgs) (db : DB) : Outcome Bool :=
  if args.Reason = "" then ⟨Except.error ResolverError.ErrNoReason, [], db⟩
  else
    match env.usr with
    | none => ⟨Except.error ResolverError.ErrLoginRequired, [], db⟩
    | some usr =>
      match ObjectIDFromHex args.ID with
      | none => ⟨Except.error ResolverError.ErrUnknownEmote, [], db⟩
      | some id =>
        if env.FindErr then
          ⟨Except.error ResolverError.ErrInternalServer, [Event.EmotesFindNotDeleted id], db⟩
        else
          match db.findEmoteNotDeleted id with
          | none => ⟨Except.error ResolverError.ErrUnknownEmote, [Event.EmotesFindNotDeleted id], db⟩
          | some emote =>
            match deleteAuth env usr db emote with
            | (evs, some err) => ⟨Except.error err, Event.EmotesFindNotDeleted id :: evs, db⟩
            | (evs, none) =>
              if env.UpdateErr then
                ⟨Except.error ResolverError.ErrInternalServer,
                  Event.EmotesFindNotDeleted id :: evs ++ [Event.EmotesSetStatus id EmoteStatus.Deleted], db⟩
              else
                let db1 := db.setEmoteStatus id EmoteStatus.Deleted
                let entry := deleteAudit usr id args.Reason
                let db2 := if env.AuditErr then db1 else db1.insertAudit entry
                let db3 := if env.PullErr then db2 else db2.pullEmote id
                ⟨Except.ok true,
                  Event.EmotesFindNotDeleted id :: evs ++
                    [Event.EmotesSetStatus id EmoteStatus.Deleted, Event.AuditInsert entry] ++
                    expireAll emote ++ [Event.UsersPull id, Event.Discord emote.ID], db3⟩

/-- A call of the purge: a storage `Expire`, or the pull of the ID from the
consumer records. -/
def Event.isPurge : Event → Bool
  | Event.Expire _ _ => true
  | Event.UsersPull _ => true
  | _ => false

/-- A write of `DeleteEmote`: the status update, the audit insert, or a purge call. -/
def Event.isDeleteWrite : Event → Bool
  | Event.EmotesSetStatus _ _ => true
  | Event.AuditInsert _ => true
  | Event.Expire _ _ => true
  | Event.UsersPull _ => true
  | _ => false

/-! ## `AddChannelEmote` -/

/-- Modelled from the spec: `utils.HasBits` is not among the sources; section 3
makes visibility a bitset, so the test is that every bit of `bit` is set in `sum`. -/
def HasBits (sum bit : Nat) : Bool := (sum &&& bit) == bit

/-- Modelled from the spec: `utils.Contains` is not among the sources; it is
membership of a string in a list (section 3: the sharing list holds the entities
granted visibility). -/
def Contains (s : List String) (compare : String) : Bool := s.contains compare

/-- The arguments of `AddChannelEmote`. -/
structure ChannelArgs where
  ChannelID : String
  EmoteID : String
  Reason : Option String
  deriving DecidableEq, Repr

/-- The three answers of the ban lookup `redis.Client.HGet(.., "user:bans", ..)`:
a value (banned), `redis.ErrNil` (not banned), or another error. -/
inductive BanResult where
  | banned
  | nil
  | failed
  deriving DecidableEq, Repr

/-- What one call of `AddChannelEmote` observes besides the store's contents. -/
structure ChannelEnv where
  usr : Option User
  Ban : BanResult
  FindErr : Bool
  DepthFailed : Bool
  EmoteFindErr : Bool
  UpdateErr : Bool
  AuditErr : Bool

/-- The editor loop of mutate-channel-emote.go 71-77. -/
def isEditor (channel usr : User) : Bool :=
  channel.EditorIDs.any fun e => Hex e == Hex usr.ID

/-- The visibility gate of mutate-channel-emote.go 113-121: `true` when the
resolver returns `errUnknownEmote` there. -/
def privateRejects (emote : Emote) (channelID emoteID : ObjectID) : Bool :=
  let sharedWith := emote.SharedWith.map Hex
  if HasBits emote.Visibility EmoteVisibilityPrivate then
    Hex emote.OwnerID != Hex channelID || !Contains sharedWith (Hex emoteID)
  else false

/-- The resolver `AddChannelEmote` (mutate-channel-emote.go 20-170); a returned
resolver is represented by the channel document it is built on. -/
def AddChannelEmote (env : ChannelEnv) (args : ChannelArgs) (db : DB) : Outcome User :=
  match env.usr with
  | none => ⟨Except.error ResolverError.ErrLoginRequired, [], db⟩
  | some usr =>
    match ObjectIDFromHex args.EmoteID with
    | none => ⟨Except.error ResolverError.ErrUnknownEmote, [], db⟩
    | some emoteID =>
      match ObjectIDFromHex args.ChannelID with
      | none => ⟨Except.error ResolverError.ErrUnknownChannel, [], db⟩
      | some channelID =>
        match env.Ban with
        | BanResult.failed => ⟨Except.error ResolverError.ErrInternalServer, [Event.BanLookup channelID], db⟩
        | BanResult.banned => ⟨Except.error ResolverError.ErrChannelBanned, [Event.BanLookup channelID], db⟩
        | BanResult.nil =>
          if env.FindErr then
            ⟨Except.error ResolverError.ErrInternalServer,
              [Event.BanLookup channelID, Event.UsersFind channelID], db⟩
          else
            match db.findUser channelID with
            | none =>
              ⟨Except.error ResolverError.ErrUnknownChannel,
                [Event.BanLookup channelID, Event.UsersFind channelID], db⟩
            | some channel =>
              if !usr.HasPermission RolePermission.ManageUsers && Hex channel.ID != Hex usr.ID
                  && !isEditor channel usr then
                ⟨Except.error ResolverError.ErrAccessDenied,
                  [Event.BanLookup channelID, Event.UsersFind channelID], db⟩
              else if env.DepthFailed then
                ⟨Except.error ResolverError.ErrDepth,
                  [Event.BanLookup channelID, Event.UsersFind channelID], db⟩
              else if channel.EmoteIDs.any (fun eID => Hex eID == Hex emoteID) then
                ⟨Except.ok channel, [Event.BanLookup channelID, Event.UsersFind channelID], db⟩
              else if env.EmoteFindErr then
                ⟨Except.error ResolverError.ErrInternalServer,
                  [Event.BanLookup channelID, Event.UsersFind channelID, Event.EmotesFindLive emoteID], db⟩
              else
                match db.findEmoteLive emoteID with
                | none =>
                  ⟨Except.error ResolverError.ErrUnknownEmote,
                    [Event.BanLookup channelID, Event.UsersFind channelID, Event.EmotesFindLive emoteID], db⟩
                | some emote =>
                  if privateRejects emote channelID emoteID then
                    ⟨Except.error ResolverError.ErrUnknownEmote,
                      [Event.BanLookup channelID, Event.UsersFind channelID, Event.EmotesFindLive emoteID], db⟩
                  else
                    let emoteIDs := channel.EmoteIDs ++ [emoteID]
                    let pre := [Event.BanLookup channelID, Event.UsersFind channelID,
                      Event.EmotesFindLive emoteID, Event.UsersSetEmotes channelID emoteIDs]
                    if env.UpdateErr then ⟨Except.error ResolverError.Raw, pre, db⟩
                    else
                      match db.setUserEmotes channelID emoteIDs with
                      | (db1, none) => ⟨Except.error ResolverError.Raw, pre, db1⟩
                      | (db1, some updated) =>
                        let entry : AuditLog := ⟨"UserChannelEmoteAdd", usr.ID, channelID, args.Reason⟩
                        ⟨Except.ok updated,
                          pre ++ [Event.AuditInsert entry, Event.Publish updated.ID emoteID],
                          if env.AuditErr then db1 else db1.insertAudit entry⟩

/-! ## The store writes of concurrently running requests -/

/-- The store, together with the requests that are between two of their store
calls: ingest runs that have inserted their record and not yet issued their last
write (`ingesting`), `DeleteEmote` calls whose find has answered and whose status
update is still to come (`deleting`), and the identities handed out so far
(`used`: an identity is never handed out twice). -/
structure Sys where
  db : DB
  ingesting : List ObjectID
  deleting : List ObjectID
  used : List ObjectID
  deriving DecidableEq, Repr

/-- One store call of some running request. -/
inductive Action where
  | ingestInsert (id : ObjectID) (e : Emote)
  | ingestLive (id : ObjectID)
  | ingestDelete (id : ObjectID)
  | deleteFind (id : ObjectID)
  | deleteUpdate (id : ObjectID)
  deriving DecidableEq, Repr

/-- The effect of one store call, `none` when no request can make it in this
state: the insert of create.go 274 (status Processing, fresh identity), the
update to Live of create.go 325 and the compensating delete of create.go 316
(by the run that inserted the record), the find of emote-delete.go 41 (a record
that is not Deleted) and the update to Deleted of emote-delete.go 78 (by a call
whose find answered). -/
def Sys.step (s : Sys) : Action → Option Sys
  | Action.ingestInsert id e =>
    if e.Status = EmoteStatus.Processing ∧ id ∉ s.used then
      (s.db.insertEmote (DocID.oid id) e).map fun db1 =>
        { s with db := db1, ingesting := id :: s.ingesting, used := id :: s.used }
    else none
  | Action.ingestLive id =>
    if id ∈ s.ingesting then
      some { s with db := s.db.setEmoteStatus id EmoteStatus.Live, ingesting := s.ingesting.erase id }
    else none
  | Action.ingestDelete id =>
    if id ∈ s.ingesting then
      some { s with db := s.db.deleteEmote (DocID.oid id), ingesting := s.ingesting.erase id }
    else none
  | Action.deleteFind id =>
    match s.db.findEmoteNotDeleted id with
    | some _ => some { s with deleting := id :: s.deleting }
    | none => none
  | Action.deleteUpdate id =>
    if id ∈ s.deleting then
      some { s with db := s.db.setEmoteStatus id EmoteStatus.Deleted, deleting := s.deleting.erase id }
    else none

/-- A run: store calls of any requests, in the order the store serves them. -/
def Sys.run (s : Sys) : List Action → Option Sys
  | [] => some s
  | a :: rest =>
    match s.step a with
    | none => none
    | some s1 => s1.run rest

/-- The system before any request: an empty store. -/
def Sys.empty : Sys := ⟨⟨[], [], []⟩, [], [], []⟩

/-- A call of the pipeline proper: sizing, transcoding, or any store or storage
call of the commit (as opposed to the scratch directory and the editor lookup). -/
def Event.isPipeline : Event → Bool
  | Event.GetSizeRatio _ _ _ => true
  | Event.Convert _ _ _ => true
  | Event.EmotesInsert _ _ => true
  | Event.EmotesDelete _ => true
  | Event.ReadFile _ => true
  | Event.UploadFile _ => true
  | Event.EmotesSetStatus _ _ => true
  | _ => false

/-- A store write on the `emotes` collection. -/
def Event.isEmotesWrite : Event → Bool
  | Event.EmotesInsert _ _ => true
  | Event.EmotesDelete _ => true
  | Event.EmotesSetStatus _ _ => true
  | _ => false

/-- The run of the handler got as far as the commit: its calls are `pre`, then
those of `commit` on some name, owner and sizes, then `post`; status, body and
store are those of the commit. -/
def ReachesCommit (env : CreateEnv) (db : DB) (r : Response) (pre post : List Event)
    (emoteName : String) (channelID : ObjectID) (sz : Sizes) : Prop :=
  (∀ e ∈ pre, e.isEmotesWrite = false) ∧ (∀ e ∈ post, e.isEmotesWrite = false) ∧
    r.trace = pre ++ (commit env db emoteName channelID sz).trace ++ post ∧
    r.status = (commit env db emoteName channelID sz).status ∧
    r.body = (commit env db emoteName channelID sz).body ∧
    r.db = (commit env db emoteName channelID sz).db

/-- The run of the handler ended before the commit: no write on `emotes`, the
store as it was. -/
def StopsEarly (db : DB) (r : Response) : Prop :=
  (∀ e ∈ r.trace, e.isEmotesWrite = false) ∧ r.db = db ∧ r.status ≠ 201

/-- The identities of the `emotes` collection are unique (the store's `_id` index). -/
def DB.uniqueKeys (db : DB) : Prop := (db.emotes.map (·.key)).Nodup

instance (db : DB) : Decidable db.uniqueKeys := by
  unfold DB.uniqueKeys; infer_instance

/-- The store of `DeleteEmote` after a status update that succeeded
(emote-delete.go 92-128): the audit entry and the pull, each unless it fails. -/
def afterDelete (env : DeleteEnv) (usr : User) (args : DeleteArgs) (db : DB) (id : ObjectID) : DB :=
  let db1 := db.setEmoteStatus id EmoteStatus.Deleted
  let db2 := if env.AuditErr then db1 else db1.insertAudit (deleteAudit usr id args.Reason)
  if env.PullErr then db2 else db2.pullEmote id

/-! ## `utils.IsPowerOfTwo` -/

/-- The 64-bit two's-complement pattern of a Go `int64`. -/
def bits64 (z : Int) : Nat := (z % 2 ^ 64).toNat

/-- The operator `&` on `int64`: the bitwise and of the two patterns, read back
as a signed value. -/
def andInt64 (a b : Int) : Int := wrapInt64 ((bits64 a &&& bits64 b : Nat) : Int)

/-- `IsPowerOfTwo` (utils.go 42-44): `(n != 0) && ((n & (n - 1)) == 0)`, the
subtraction wrapping as Go's `int64` does. -/
def IsPowerOfTwo (n : Int) : Bool :=
  (n != 0) && (andInt64 n (wrapInt64 (n - 1)) == 0)

/-! ## Concrete inputs -/

/-- A single frame placed at a positive offset: `(2,2)-(8,8)`. -/
def offsetGif : GIF := ⟨[frame 2 2 8 8]⟩

/-- A full-canvas frame and a smaller frame inside it. -/
def canvasGif : GIF := ⟨[frame 0 0 10 10, frame 2 2 8 8]⟩

/-- A single non-empty frame spanning the whole range of Go's `int` in `X`. -/
def extremeGif : GIF := ⟨[frame (-(2 ^ 63)) 0 (2 ^ 63 - 1) 1]⟩

/-- A frame with negative coordinates next to one with positive coordinates. -/
def signedGif : GIF := ⟨[frame (-5) (-7) (-1) (-2), frame 3 4 6 9]⟩

/-- A user who may create emotes. -/
def uploader : User := ⟨1, "uploader", [], [], [RolePermission.EmoteCreate]⟩

/-- The four tiers. -/
def tiers : List FileMeta :=
  [⟨"/tmp/w/1x", "1x", "32x32"⟩, ⟨"/tmp/w/2x", "2x", "64x64"⟩,
    ⟨"/tmp/w/3x", "3x", "96x96"⟩, ⟨"/tmp/w/4x", "4x", "128x128"⟩]

/-- A `name` part carrying `wave`. -/
def namePart : Part := ⟨"name", "", "", ("wave", ReadErr.EOF), false, []⟩

/-- An `emote` part declared as a GIF, read in one pass. -/
def gifPart : Part := ⟨"emote", "wave.gif", "image/gif", ("", ReadErr.nil), false, [(ReadErr.EOF, false)]⟩

/-- A run in which everything works and the GIF decodes to `g`. -/
def gifEnv (g : GIF) : CreateEnv :=
  { usr := some uploader, IsBodyStream := true, MkdirErr := false,
    Parts := [some namePart, some gifPart], ValidateEmoteName := fun s => s.length ≤ 100,
    EditorFindErr := false, OpenErr := false, JpegDecode := none, PngDecode := none,
    GifDecodeAll := some g, Files := tiers, files_le := by decide,
    GetSizeRatio := fun w h _ => (w, h), ConvertErr := fun _ => false,
    InsertErr := false, InsertedID := DocID.oid 7,
    ReadFileErr := fun _ => false, UploadErr := fun _ => false,
    DeleteErr := false, UpdateErr := false }

/-- The run `gifEnv canvasGif`, except that the upload of the third tier fails. -/
def tierThreeFailsEnv : CreateEnv :=
  { gifEnv canvasGif with UploadErr := fun i => i == 2 }

/-- A GIF of `n` frames, each `(0,0)-(1,1)`. -/
def framesGif (n : Nat) : GIF := ⟨List.replicate n (frame 0 0 1 1)⟩

/-- A stored emote owned by user `1`, not private. -/
def waveEmote (status : EmoteStatus) : Emote :=
  { ID := 0, Name := "wave", Mime := "image/webp", Status := status, Tags := [], Visibility := 0,
    OwnerID := 1, Width := [10, 10, 10, 10], Height := [10, 10, 10, 10], SharedWith := [] }

/-- A store holding the emote `7` with the given status, enabled by channel `1`. -/
def waveDB (status : EmoteStatus) : DB :=
  ⟨[⟨DocID.oid 7, waveEmote status⟩], [⟨1, "owner", [], [7], []⟩], []⟩

/-- A user holding the edit-all permission. -/
def moderator : User := ⟨2, "moderator", [], [], [RolePermission.EmoteEditAll]⟩

/-- A user who is neither owner nor editor and has no permission. -/
def stranger : User := ⟨3, "stranger", [], [], []⟩

/-- A deletion of the emote `7` with a reason. -/
def deleteArgs : DeleteArgs := ⟨"000000000000000000000007", "spam"⟩

/-- A call by the moderator in which the audit insert, the `Expire` of tier 3
and the pull all fail. -/
def tierThreeExpireFailsEnv : DeleteEnv :=
  ⟨some moderator, false, false, false, true, fun i => i == 3, true⟩

/-- A call by `usr` in which no collaborator fails. -/
def quietDeleteEnv (usr : Option User) : DeleteEnv :=
  ⟨usr, false, false, false, false, fun _ => false, false⟩

/-- The identities in the store are unique and have all been handed out. -/
def Sys.Inv (s : Sys) : Prop :=
  (s.db.emotes.map (·.key)).Nodup ∧ ∀ d ∈ s.db.emotes, ∃ k ∈ s.used, d.key = DocID.oid k

/-- The record `id` has been handed out and is not in Processing. -/
def Sys.Settled (id : ObjectID) (s : Sys) : Prop :=
  id ∈ s.used ∧ s.db.statusOf id ≠ some EmoteStatus.Processing

/-- The record `id` is Deleted and no ingest run for it is still pending. -/
def Sys.Quiet (id : ObjectID) (s : Sys) : Prop :=
  id ∈ s.used ∧ id ∉ s.ingesting ∧ s.db.statusOf id = some EmoteStatus.Deleted

/-- The interleaving in which an emote is deleted while its ingest run is still
uploading: insert, the find and the update of `DeleteEmote`. -/
def deleteDuringIngest : List Action :=
  [Action.ingestInsert 7 (waveEmote EmoteStatus.Processing), Action.deleteFind 7,
    Action.deleteUpdate 7]

/-- An ingest run that ends before the emote is deleted. -/
def deleteAfterIngest : List Action :=
  [Action.ingestInsert 7 (waveEmote EmoteStatus.Processing), Action.ingestLive 7,
    Action.deleteFind 7, Action.deleteUpdate 7]

/-- The state after `deleteDuringIngest`. -/
def deletedWhileIngesting : Sys := (Sys.empty.run deleteDuringIngest).getD Sys.empty

/-- The state after `deleteDuringIngest` and then the update to Live of the
ingest run. -/
def liveAfterDelete : Sys := (deletedWhileIngesting.run [Action.ingestLive 7]).getD Sys.empty

/-- The state after `deleteAfterIngest`. -/
def deletedAfterIngest : Sys := (Sys.empty.run deleteAfterIngest).getD Sys.empty

/-- A further ingest run, of the emote `8`. -/
def laterIngest : List Action :=
  [Action.ingestInsert 8 (waveEmote EmoteStatus.Processing), Action.ingestLive 8]

/-- The channel `1`, owner of the emote `7`, acting for itself. -/
def ownerChannel : User := ⟨1, "owner", [], [], []⟩

/-- The channel `5`, which the emote `7` is shared with. -/
def friendChannel : User := ⟨5, "friend", [], [], []⟩

/-- A store holding the Live, private emote `7`, owned by channel `1` and shared
with the channels in `sharedWith`; no channel has enabled it. -/
def privateDB (sharedWith : List ObjectID) : DB :=
  ⟨[⟨DocID.oid 7, { waveEmote EmoteStatus.Live with
      Visibility := EmoteVisibilityPrivate, SharedWith := sharedWith }⟩],
    [ownerChannel, friendChannel], []⟩

/-- A call by `usr` in which no collaborator fails and the channel is not banned. -/
def quietChannelEnv (usr : User) : ChannelEnv :=
  ⟨some usr, BanResult.nil, false, false, false, false, false⟩

/-- The owner channel `1` enables the emote `7`. -/
def ownerAdds : ChannelArgs := ⟨"000000000000000000000001", "000000000000000000000007", none⟩

/-- The channel `5` enables the emote `7`. -/
def friendAdds : ChannelArgs := ⟨"000000000000000000000005", "000000000000000000000007", none⟩

/-- An `emote` part whose file name yields a name with a blank and an
exclamation mark. -/
def badNamePart : Part :=
  ⟨"emote", "bad name!.gif", "image/gif", ("", ReadErr.nil), false, [(ReadErr.EOF, false)]⟩

/-- A `name` part carrying the same name. -/
def badNameField : Part := ⟨"name", "", "", ("bad name!", ReadErr.EOF), false, []⟩

/-- A validation that accepts letters and digits only. -/
def lettersAndDigits (s : String) : Bool := s.data.all Char.isAlphanum

/-- A run whose only part is the file: the name is inferred from the file name. -/
def inferredNameEnv : CreateEnv :=
  { gifEnv canvasGif with Parts := [some badNamePart], ValidateEmoteName := lettersAndDigits }

/-- A run that sends the same name in a `name` part before the file. -/
def statedNameEnv : CreateEnv :=
  { gifEnv canvasGif with
    Parts := [some badNameField, some gifPart], ValidateEmoteName := lettersAndDigits }

/-- The name a form ends with is empty, passed the validation, or is the file
name of an `emote` part without its extension. -/
def Form.nameChecked (env : CreateEnv) (st : Form) : Prop :=
  st.emoteName = "" ∨ env.ValidateEmoteName st.emoteName = true ∨
    ∃ p : Part, p.FormName = "emote" ∧
      st.emoteName = TrimSuffix p.FileName (filepathExt p.FileName)

/-- A GIF whose only frame has the empty rectangle `(0,0)-(0,0)`. -/
def emptyFrameGif : GIF := ⟨[frame 0 0 0 0]⟩

/-- A GIF with no frame. -/
def noFrameGif : GIF := ⟨[]⟩

/-- The run `gifEnv canvasGif`, except that the update to Live fails. -/
def updateFailsEnv : CreateEnv :=
  { gifEnv canvasGif with UpdateErr := true }

/-- An empty store. -/
def emptyDB : DB := ⟨[], [], []⟩

/-! # Theorems -/

/-! ## `getGifDimensions` -/

theorem foldr_min_init (xs : List Int) (a x : Int) :
    xs.foldr min (min x a) = min x (xs.foldr min a) := by
  induction xs with
  | nil => rfl
  | cons y ys ih => simp only [List.foldr_cons, ih]; exact min_left_comm y x _

theorem foldr_max_init (xs : List Int) (a x : Int) :
    xs.foldr max (max x a) = max x (xs.foldr max a) := by
  induction xs with
  | nil => rfl
  | cons y ys ih => simp only [List.foldr_cons, ih]; exact max_left_comm y x _

theorem extentStep_eq (acc : Extent) (img : Paletted) :
    extentStep acc img =
      ⟨min img.Rect.Min.X acc.leastX, min img.Rect.Min.Y acc.leastY,
        max img.Rect.Max.X acc.mostX, max img.Rect.Max.Y acc.mostY⟩ := by
  unfold extentStep
  simp only [Extent.mk.injEq]
  refine ⟨?_, ?_, ?_, ?_⟩
  · split <;> omega
  · split <;> omega
  · split <;> omega
  · split <;> omega

theorem foldl_extentStep (fs : List Paletted) (acc : Extent) :
    fs.foldl extentStep acc =
      ⟨(fs.map (·.Rect.Min.X)).foldr min acc.leastX, (fs.map (·.Rect.Min.Y)).foldr min acc.leastY,
        (fs.map (·.Rect.Max.X)).foldr max acc.mostX, (fs.map (·.Rect.Max.Y)).foldr max acc.mostY⟩ := by
  induction fs generalizing acc with
  | nil => rfl
  | cons f fs ih =>
    simp only [List.foldl_cons, ih, extentStep_eq, List.map_cons, List.foldr_cons,
      foldr_min_init, foldr_max_init]

theorem gifExtent_eq (gif : GIF) :
    gifExtent gif = ⟨originMinLeft gif, originMinTop gif, originMaxRight gif, originMaxBottom gif⟩ := by
  unfold gifExtent originMinLeft originMinTop originMaxRight originMaxBottom
  exact foldl_extentStep gif.Image ⟨0, 0, 0, 0⟩

theorem foldr_min_le_init (xs : List Int) (a : Int) : xs.foldr min a ≤ a := by
  induction xs with
  | nil => exact le_refl a
  | cons y ys ih => exact le_trans (min_le_right _ _) ih

theorem foldr_min_le_of_mem (xs : List Int) (a x : Int) (h : x ∈ xs) : xs.foldr min a ≤ x := by
  induction xs with
  | nil => cases h
  | cons y ys ih =>
    rcases List.mem_cons.mp h with h1 | h1
    · subst h1; exact min_le_left _ _
    · exact le_trans (min_le_right _ _) (ih h1)

theorem le_foldr_min (xs : List Int) (a b : Int) (ha : b ≤ a) (h : ∀ x ∈ xs, b ≤ x) :
    b ≤ xs.foldr min a := by
  induction xs with
  | nil => exact ha
  | cons y ys ih =>
    exact le_min (h y (List.mem_cons_self _ _)) (ih fun x hx => h x (List.mem_cons_of_mem _ hx))

theorem init_le_foldr_max (xs : List Int) (a : Int) : a ≤ xs.foldr max a := by
  induction xs with
  | nil => exact le_refl a
  | cons y ys ih => exact le_trans ih (le_max_right _ _)

theorem le_foldr_max_of_mem (xs : List Int) (a x : Int) (h : x ∈ xs) : x ≤ xs.foldr max a := by
  induction xs with
  | nil => cases h
  | cons y ys ih =>
    rcases List.mem_cons.mp h with h1 | h1
    · subst h1; exact le_max_left _ _
    · exact le_trans (ih h1) (le_max_right _ _)

theorem foldr_max_le (xs : List Int) (a b : Int) (ha : a ≤ b) (h : ∀ x ∈ xs, x ≤ b) :
    xs.foldr max a ≤ b := by
  induction xs with
  | nil => exact ha
  | cons y ys ih =>
    exact max_le (h y (List.mem_cons_self _ _)) (ih fun x hx => h x (List.mem_cons_of_mem _ hx))

theorem wrapInt64_of_fits (z : Int) (h0 : 0 ≤ z) (h1 : z < 2 ^ 63) : wrapInt64 z = z := by
  unfold wrapInt64
  omega

/-- C1, as stated, fails: for the single frame `(2,2)-(8,8)` the bounding box of
the frames is `6 x 6`, and `getGifDimensions` returns `(8, 8)`. -/
theorem getGifDimensions_not_frame_bounding_box :
    offsetGif.Image ≠ [] ∧ frameBoundingBox offsetGif = some (6, 6) ∧
      getGifDimensions offsetGif = (8, 8) ∧
      ¬ ∀ gif : GIF, gif.Image ≠ [] → some (getGifDimensions gif) = frameBoundingBox gif := by
  have h1 : frameBoundingBox offsetGif = some (6, 6) := by decide
  have h2 : getGifDimensions offsetGif = (8, 8) := by decide
  refine ⟨by decide, h1, h2, fun h => ?_⟩
  have h3 := h offsetGif (by decide)
  rw [h1, h2] at h3
  exact absurd h3 (by decide)

theorem foldr_min_mem (xs : List Int) (a : Int) : xs.foldr min a = a ∨ xs.foldr min a ∈ xs := by
  induction xs with
  | nil => exact Or.inl rfl
  | cons y ys ih =>
    simp only [List.foldr_cons, List.mem_cons]
    rcases min_choice y (ys.foldr min a) with h | h
    · exact Or.inr (Or.inl h)
    · rw [h]
      rcases ih with h1 | h1
      · exact Or.inl h1
      · exact Or.inr (Or.inr h1)

theorem foldr_max_mem (xs : List Int) (a : Int) : xs.foldr max a = a ∨ xs.foldr max a ∈ xs := by
  induction xs with
  | nil => exact Or.inl rfl
  | cons y ys ih =>
    simp only [List.foldr_cons, List.mem_cons]
    rcases max_choice y (ys.foldr max a) with h | h
    · exact Or.inr (Or.inl h)
    · rw [h]
      rcases ih with h1 | h1
      · exact Or.inl h1
      · exact Or.inr (Or.inr h1)

theorem isLeast_foldr_min (fs : List Paletted) (g : Paletted → Int) :
    IsLeast (insert 0 {x | ∃ f ∈ fs, g f = x}) ((fs.map g).foldr min 0) := by
  constructor
  · rcases foldr_min_mem (fs.map g) 0 with h | h
    · rw [h]; exact Set.mem_insert _ _
    · rcases List.mem_map.mp h with ⟨f, hf, hg⟩
      exact Set.mem_insert_of_mem _ ⟨f, hf, hg⟩
  · intro x hx
    rcases Set.mem_insert_iff.mp hx with h | ⟨f, hf, hg⟩
    · rw [h]; exact foldr_min_le_init _ _
    · exact foldr_min_le_of_mem _ _ _ (List.mem_map.mpr ⟨f, hf, hg⟩)

theorem isGreatest_foldr_max (fs : List Paletted) (g : Paletted → Int) :
    IsGreatest (insert 0 {x | ∃ f ∈ fs, g f = x}) ((fs.map g).foldr max 0) := by
  constructor
  · rcases foldr_max_mem (fs.map g) 0 with h | h
    · rw [h]; exact Set.mem_insert _ _
    · rcases List.mem_map.mp h with ⟨f, hf, hg⟩
      exact Set.mem_insert_of_mem _ ⟨f, hf, hg⟩
  · intro x hx
    rcases Set.mem_insert_iff.mp hx with h | ⟨f, hf, hg⟩
    · rw [h]; exact init_le_foldr_max _ _
    · exact le_foldr_max_of_mem _ _ _ (List.mem_map.mpr ⟨f, hf, hg⟩)

theorem getGifDimensions_eq (gif : GIF) :
    getGifDimensions gif =
      (wrapInt64 (originMaxRight gif - originMinLeft gif),
        wrapInt64 (originMaxBottom gif - originMinTop gif)) := by
  unfold getGifDimensions
  simp only [gifExtent_eq]

/-- C1, amended: for every frame list, `getGifDimensions` returns
`(maxRight - minLeft, maxBottom - minTop)` in Go's wrapping 64-bit arithmetic,
where `minLeft`/`minTop` are the least of `0` and every `Rect.Min.X`/`Rect.Min.Y`
and `maxRight`/`maxBottom` the greatest of `0` and every `Rect.Max.X`/`Rect.Max.Y`:
the size of the bounding box spanning the origin and every frame. -/
theorem getGifDimensions_origin_bounding_box (gif : GIF) :
    IsLeast (insert 0 {x | ∃ f ∈ gif.Image, f.Rect.Min.X = x}) (originMinLeft gif) ∧
      IsLeast (insert 0 {y | ∃ f ∈ gif.Image, f.Rect.Min.Y = y}) (originMinTop gif) ∧
      IsGreatest (insert 0 {x | ∃ f ∈ gif.Image, f.Rect.Max.X = x}) (originMaxRight gif) ∧
      IsGreatest (insert 0 {y | ∃ f ∈ gif.Image, f.Rect.Max.Y = y}) (originMaxBottom gif) ∧
      getGifDimensions gif =
        (wrapInt64 (originMaxRight gif - originMinLeft gif),
          wrapInt64 (originMaxBottom gif - originMinTop gif)) :=
  ⟨isLeast_foldr_min gif.Image _, isLeast_foldr_min gif.Image _,
    isGreatest_foldr_max gif.Image _, isGreatest_foldr_max gif.Image _, getGifDimensions_eq gif⟩

/-- C8, as stated, fails: one non-empty frame whose `X` coordinates are the
least and the greatest Go `int` makes the width wrap to `-1`. -/
theorem getGifDimensions_extreme_not_positive :
    ¬ ∀ gif : GIF, 1 ≤ gif.Image.length → gif.Image.length ≤ 1024 →
        (∀ f ∈ gif.Image, IsInt64 f.Rect.Min.X ∧ IsInt64 f.Rect.Min.Y ∧
          IsInt64 f.Rect.Max.X ∧ IsInt64 f.Rect.Max.Y) →
        (∀ f ∈ gif.Image, f.Rect.Min.X < f.Rect.Max.X ∧ f.Rect.Min.Y < f.Rect.Max.Y) →
        0 < (getGifDimensions gif).1 ∧ 0 < (getGifDimensions gif).2 := by
  intro h
  have h1 := h extremeGif (by decide) (by decide) (by decide) (by decide)
  have h2 : getGifDimensions extremeGif = (-1, 1) := by decide
  rw [h2] at h1
  exact absurd h1.1 (by decide)

/-- C8, amended: for every frame list with between 1 and 1024 frames, each with a
non-empty rectangle (coordinates of either sign), whose extent from the least of
`0` and the left (top) edges to the greatest of `0` and the right (bottom) edges
is below `2 ^ 63` in both axes, `getGifDimensions` returns a width and a height
that are both strictly greater than `0`. -/
theorem getGifDimensions_pos (gif : GIF)
    (hlen : 1 ≤ gif.Image.length) (_hmax : gif.Image.length ≤ 1024)
    (hne : ∀ f ∈ gif.Image, f.Rect.Min.X < f.Rect.Max.X ∧ f.Rect.Min.Y < f.Rect.Max.Y)
    (hx : originMaxRight gif - originMinLeft gif < 2 ^ 63)
    (hy : originMaxBottom gif - originMinTop gif < 2 ^ 63) :
    0 < (getGifDimensions gif).1 ∧ 0 < (getGifDimensions gif).2 := by
  obtain ⟨f, hf⟩ := List.exists_mem_of_length_pos hlen
  have hl := foldr_min_le_of_mem (gif.Image.map (·.Rect.Min.X)) 0 _ (List.mem_map_of_mem _ hf)
  have ht := foldr_min_le_of_mem (gif.Image.map (·.Rect.Min.Y)) 0 _ (List.mem_map_of_mem _ hf)
  have hr := le_foldr_max_of_mem (gif.Image.map (·.Rect.Max.X)) 0 _ (List.mem_map_of_mem _ hf)
  have hb := le_foldr_max_of_mem (gif.Image.map (·.Rect.Max.Y)) 0 _ (List.mem_map_of_mem _ hf)
  have hfx := (hne f hf).1
  have hfy := (hne f hf).2
  rw [getGifDimensions_eq]
  unfold originMinLeft originMinTop originMaxRight originMaxBottom at *
  constructor
  · show 0 < wrapInt64 _
    rw [wrapInt64_of_fits _ (by omega) hx]; omega
  · show 0 < wrapInt64 _
    rw [wrapInt64_of_fits _ (by omega) hy]; omega

/-- Witness of `getGifDimensions_pos`: a frame with negative and a frame with
positive coordinates. -/
theorem getGifDimensions_pos_witness :
    getGifDimensions signedGif = (11, 16) ∧
      0 < (getGifDimensions signedGif).1 ∧ 0 < (getGifDimensions signedGif).2 :=
  ⟨by decide,
    getGifDimensions_pos signedGif (by decide) (by decide) (by decide) (by decide) (by decide)⟩

/-- C9: for every `W > 0` and `H > 0` (Go `int`s) and every frame list that
contains the frame `(0,0)-(W,H)` and whose frames all lie inside that rectangle,
in any order, `getGifDimensions` returns exactly `(W, H)`. -/
theorem getGifDimensions_canvas (gif : GIF) (W H : Int)
    (hW : 0 < W) (hW64 : W < 2 ^ 63) (hH : 0 < H) (hH64 : H < 2 ^ 63)
    (hmem : frame 0 0 W H ∈ gif.Image)
    (hin : ∀ f ∈ gif.Image,
      0 ≤ f.Rect.Min.X ∧ 0 ≤ f.Rect.Min.Y ∧ f.Rect.Max.X ≤ W ∧ f.Rect.Max.Y ≤ H) :
    getGifDimensions gif = (W, H) := by
  have hl : originMinLeft gif = 0 :=
    le_antisymm (foldr_min_le_init _ _)
      (le_foldr_min _ _ _ (le_refl 0) fun x hx => by
        obtain ⟨f, hf, rfl⟩ := List.mem_map.mp hx
        exact (hin f hf).1)
  have ht : originMinTop gif = 0 :=
    le_antisymm (foldr_min_le_init _ _)
      (le_foldr_min _ _ _ (le_refl 0) fun x hx => by
        obtain ⟨f, hf, rfl⟩ := List.mem_map.mp hx
        exact (hin f hf).2.1)
  have hr : originMaxRight gif = W :=
    le_antisymm
      (foldr_max_le _ _ _ (le_of_lt hW) fun x hx => by
        obtain ⟨f, hf, rfl⟩ := List.mem_map.mp hx
        exact (hin f hf).2.2.1)
      (le_foldr_max_of_mem _ _ _ (List.mem_map.mpr ⟨_, hmem, rfl⟩))
  have hb : originMaxBottom gif = H :=
    le_antisymm
      (foldr_max_le _ _ _ (le_of_lt hH) fun x hx => by
        obtain ⟨f, hf, rfl⟩ := List.mem_map.mp hx
        exact (hin f hf).2.2.2)
      (le_foldr_max_of_mem _ _ _ (List.mem_map.mpr ⟨_, hmem, rfl⟩))
  rw [getGifDimensions_eq, hl, ht, hr, hb, sub_zero, sub_zero,
    wrapInt64_of_fits W (le_of_lt hW) hW64, wrapInt64_of_fits H (le_of_lt hH) hH64]

/-- Witness of `getGifDimensions_canvas`: the frames `(0,0)-(10,10)` and
`(2,2)-(8,8)` give `(10, 10)`, in either order. -/
theorem getGifDimensions_canvas_witness :
    getGifDimensions canvasGif = (10, 10) ∧
      getGifDimensions ⟨canvasGif.Image.reverse⟩ = (10, 10) :=
  ⟨getGifDimensions_canvas canvasGif 10 10 (by decide) (by decide) (by decide) (by decide)
      (by decide) (by decide),
    getGifDimensions_canvas ⟨canvasGif.Image.reverse⟩ 10 10 (by decide) (by decide) (by decide)
      (by decide) (by decide) (by decide)⟩

/-! ## The ingest handler -/

theorem authorize_events (env : CreateEnv) (usr : User) (db : DB) (channelID : ObjectID) :
    ∀ e ∈ (authorize env usr db channelID).1, e.isPipeline = false := by
  intro e he
  unfold authorize at he
  split at he
  · split at he
    · split at he
      · simp only [List.mem_singleton] at he; subst he; rfl
      · split at he <;> (simp only [List.mem_singleton] at he; subst he; rfl)
    · cases he
  · cases he

theorem resize_events (env : CreateEnv) (w h : Int) (fs : List FileMeta) :
    ∀ (i : Nat) (sz : Sizes), ∀ e ∈ (resize env w h i fs sz).1, e.isEmotesWrite = false := by
  induction fs with
  | nil => intro i sz e he; cases he
  | cons f fs ih =>
    intro i sz e he
    unfold resize at he
    simp only at he
    split at he
    · simp only [List.mem_cons, List.mem_singleton, List.not_mem_nil, or_false] at he
      rcases he with he | he <;> (subst he; rfl)
    · simp only [List.cons_append, List.nil_append, List.mem_cons] at he
      rcases he with he | he | he
      · subst he; rfl
      · subst he; rfl
      · exact ih _ _ e he

theorem uploadAll_events (env : CreateEnv) (_id : ObjectID) (fs : List FileMeta) :
    ∀ (i : Nat), ∀ e ∈ (uploadAll env _id i fs).1, e.isEmotesWrite = false := by
  induction fs with
  | nil => intro i e he; cases he
  | cons f fs ih =>
    intro i e he
    unfold uploadAll at he
    simp only [List.mem_append] at he
    rcases he with he | he
    · unfold uploadOne at he
      split at he
      · simp only [List.mem_singleton] at he; subst he; rfl
      · simp only [List.mem_cons, List.mem_singleton, List.not_mem_nil, or_false] at he
        rcases he with he | he <;> (subst he; rfl)
    · exact ih _ e he

theorem uploadAll_errored (env : CreateEnv) (_id : ObjectID) (fs : List FileMeta) :
    ∀ (i : Nat), (uploadAll env _id i fs).2 = true ↔
      ∃ j, j < fs.length ∧ (env.ReadFileErr (i + j) = true ∨ env.UploadErr (i + j) = true) := by
  induction fs with
  | nil => intro i; simp [uploadAll]
  | cons f fs ih =>
    intro i
    unfold uploadAll
    simp only [Bool.or_eq_true, ih, List.length_cons]
    have h1 : (uploadOne env _id i f).2 = true ↔
        (env.ReadFileErr i = true ∨ env.UploadErr i = true) := by
      unfold uploadOne
      split <;> simp_all
    rw [h1]
    constructor
    · rintro (h | ⟨j, hj, h⟩)
      · exact ⟨0, Nat.succ_pos _, by simpa using h⟩
      · exact ⟨j + 1, Nat.succ_lt_succ hj, by rw [← Nat.add_assoc, Nat.add_right_comm]; simpa [Nat.add_assoc, Nat.add_comm 1 j] using h⟩
    · rintro ⟨j, hj, h⟩
      cases j with
      | zero => exact Or.inl (by simpa using h)
      | succ k =>
        refine Or.inr ⟨k, Nat.lt_of_succ_lt_succ hj, ?_⟩
        have : i + 1 + k = i + (k + 1) := by omega
        rw [this]; exact h

theorem readPart_status (env : CreateEnv) (st : Form) (p : Option Part) (status : Nat)
    (detail : String) (h : readPart env st p = Except.error (status, detail)) :
    status = 400 ∨ status = 500 := by
  unfold readPart at h
  split at h
  · cases h
  · rename_i part
    have hc : ∀ l : List (ReadErr × Bool), ∀ n, copyLoop l = some n → n = 400 ∨ n = 500 := by
      intro l
      induction l with
      | nil => intro n hn; cases hn
      | cons c cs ih =>
        intro n hn
        obtain ⟨err, writeErr⟩ := c
        unfold copyLoop at hn
        split at hn
        · cases hn; exact Or.inl rfl
        · split at hn
          · cases hn; exact Or.inr rfl
          · split at hn
            · cases hn
            · exact ih n hn
    repeat' split at h
    all_goals first
      | (cases h; done)
      | (simp only [Except.error.injEq, Prod.mk.injEq] at h; omega)
      | (have h2 := hc _ _ (by assumption)
         simp only [Except.error.injEq, Prod.mk.injEq] at h
         omega)

theorem readParts_status (env : CreateEnv) (usr : User) (status : Nat) (detail : String)
    (h : readParts env usr = Except.error (status, detail)) : status = 400 ∨ status = 500 := by
  unfold readParts at h
  simp only [bind, Except.bind] at h
  split at h
  · cases h; exact readPart_status _ _ _ _ _ (by assumption)
  · split at h
    · cases h; exact readPart_status _ _ _ _ _ (by assumption)
    · exact readPart_status _ _ _ _ _ h

theorem commit_status (env : CreateEnv) (db : DB) (n : String) (c : ObjectID) (sz : Sizes) :
    (commit env db n c sz).status = 500 ∨ (commit env db n c sz).status = 201 := by
  unfold commit
  simp only
  repeat' split
  all_goals simp

theorem process_shape (env : CreateEnv) (db : DB) (st : Form) (w h : Int) :
    StopsEarly db (process env db st w h) ∨
      ∃ pre sz, ReachesCommit env db (process env db st w h) pre [] st.emoteName st.channelID sz := by
  unfold process
  split
  · rename_i evs hres
    refine Or.inl ⟨?_, rfl, by simp⟩
    intro e he
    have := resize_events env w h env.Files 0 ⟨[0, 0, 0, 0], [0, 0, 0, 0]⟩ e
    rw [hres] at this
    exact this he
  · rename_i evs sz hres
    refine Or.inr ⟨evs, sz, ?_, ?_, ?_, rfl, rfl, rfl⟩
    · intro e he
      have := resize_events env w h env.Files 0 ⟨[0, 0, 0, 0], [0, 0, 0, 0]⟩ e
      rw [hres] at this
      exact this he
    · intro e he; cases he
    · simp [Response.within]

theorem ingest_shape (env : CreateEnv) (usr : User) (db : DB) :
    StopsEarly db (ingest env usr db) ∨
      ∃ pre n c sz, ReachesCommit env db (ingest env usr db) pre [] n c sz := by
  unfold ingest
  split
  · rename_i status detail hrd
    refine Or.inl ⟨fun e he => (by cases he), rfl, ?_⟩
    rcases readParts_status env usr status detail hrd with h | h <;> simp [h]
  · rename_i st hrd
    split
    · exact Or.inl ⟨fun e he => (by cases he), rfl, by simp⟩
    · have hau := authorize_events env usr db st.channelID
      have hau2 : ∀ e ∈ (authorize env usr db st.channelID).1, e.isEmotesWrite = false := by
        intro e he
        have := hau e he
        cases e <;> first | rfl | cases this
      split
      · rename_i evs status detail hauth
        rw [hauth] at hau2
        refine Or.inl ⟨hau2, rfl, ?_⟩
        unfold authorize at hauth
        repeat' split at hauth
        all_goals first
          | (cases hauth; done)
          | (simp only [Prod.mk.injEq, Option.some.injEq] at hauth
             obtain ⟨-, h1, -⟩ := hauth
             simp [← h1])
      · rename_i evs hauth
        rw [hauth] at hau2
        split
        · exact Or.inl ⟨hau2, rfl, by simp⟩
        · split
          · rename_i status detail hdec
            refine Or.inl ⟨hau2, rfl, ?_⟩
            unfold decode at hdec
            repeat' split at hdec
            all_goals first
              | (cases hdec; done)
              | (simp only [Except.error.injEq, Prod.mk.injEq] at hdec
                 obtain ⟨h1, -⟩ := hdec
                 simp [← h1])
          · rename_i ogWidth ogHeight hdec
            rcases process_shape env db st ogWidth ogHeight with h | ⟨pre, sz, h1, h2, h3, h4, h5, h6⟩
            · refine Or.inl ⟨?_, h.2.1, h.2.2⟩
              intro e he
              simp only [Response.within, List.append_nil, List.mem_append] at he
              rcases he with he | he
              · exact hau2 e he
              · exact h.1 e he
            · refine Or.inr ⟨evs ++ pre, st.emoteName, st.channelID, sz, ?_, h2, ?_, h4, h5, h6⟩
              · intro e he
                rcases List.mem_append.mp he with he | he
                · exact hau2 e he
                · exact h1 e he
              · simp only [Response.within, List.append_nil, h3, List.append_assoc]

theorem CreateRoute_shape (env : CreateEnv) (db : DB) :
    StopsEarly db (CreateRoute env db) ∨
      ∃ pre post n c sz, ReachesCommit env db (CreateRoute env db) pre post n c sz := by
  unfold CreateRoute
  split
  · exact Or.inl ⟨fun e he => (by cases he), rfl, by simp⟩
  · rename_i usr husr
    split
    · exact Or.inl ⟨fun e he => (by cases he), rfl, by simp⟩
    · split
      · exact Or.inl ⟨fun e he => (by cases he), rfl, by simp⟩
      · split
        · refine Or.inl ⟨fun e he => ?_, rfl, by simp⟩
          simp only [List.mem_singleton] at he; subst he; rfl
        · rcases ingest_shape env usr db with h | ⟨pre, n, c, sz, h1, h2, h3, h4, h5, h6⟩
          · refine Or.inl ⟨?_, h.2.1, h.2.2⟩
            intro e he
            simp only [Response.within, List.mem_append, List.mem_singleton] at he
            rcases he with (he | he) | he
            · subst he; rfl
            · exact h.1 e he
            · subst he; rfl
          · refine Or.inr ⟨Event.MkdirAll :: pre, [Event.RemoveAll], n, c, sz, ?_, ?_, ?_, h4, h5, h6⟩
            · intro e he
              rcases List.mem_cons.mp he with he | he
              · subst he; rfl
              · exact h1 e he
            · intro e he
              simp only [List.mem_singleton] at he; subst he; rfl
            · simp only [Response.within, h3, List.append_nil, List.cons_append, List.nil_append,
                List.append_assoc, List.singleton_append]

theorem insertEmote_deleteEmote (db db1 : DB) (key : DocID) (e : Emote)
    (h : db.insertEmote key e = some db1) : db1.deleteEmote key = db := by
  unfold DB.insertEmote at h
  split at h
  · cases h
  · rename_i hany
    simp only [Option.some.injEq] at h
    subst h
    have hno : ∀ d ∈ db.emotes, ¬ (decide (d.key = key)) = true := by
      intro d hd hk
      exact hany (List.any_eq_true.mpr ⟨d, hd, hk⟩)
    unfold DB.deleteEmote
    simp only [List.eraseP_append_right _ hno]
    simp [List.eraseP]

theorem insertEmote_fresh (db db1 : DB) (key : DocID) (e : Emote)
    (h : db.insertEmote key e = some db1) : ∀ d ∈ db.emotes, d.key ≠ key := by
  unfold DB.insertEmote at h
  split at h
  · cases h
  · rename_i hany
    intro d hd hk
    exact hany (List.any_eq_true.mpr ⟨d, hd, by simpa using hk⟩)

theorem mem_uploadAll_not_write (env : CreateEnv) (_id : ObjectID) (fs : List FileMeta)
    (i : Nat) (e : Event) (he : e ∈ (uploadAll env _id i fs).1) : e.isEmotesWrite ≠ true := by
  rw [uploadAll_events env _id fs i e he]
  simp

theorem commit_spec (env : CreateEnv) (db : DB) (n : String) (c : ObjectID) (sz : Sizes)
    (e : Emote) (key : DocID)
    (hins : Event.EmotesInsert e (some key) ∈ (commit env db n c sz).trace) :
    e.Status = EmoteStatus.Processing ∧ key = env.InsertedID ∧
      ((∃ i, i < env.Files.length ∧ (env.ReadFileErr i = true ∨ env.UploadErr i = true)) →
        (commit env db n c sz).status = 500 ∧
        Event.EmotesDelete key ∈ (commit env db n c sz).trace ∧
        (∀ id s, Event.EmotesSetStatus id s ∉ (commit env db n c sz).trace) ∧
        (env.DeleteErr = false → (commit env db n c sz).db = db ∧
          ∀ d ∈ (commit env db n c sz).db.emotes, d.key ≠ key)) ∧
      (∀ id s, Event.EmotesSetStatus id s ∈ (commit env db n c sz).trace →
        s = EmoteStatus.Live ∧ key = DocID.oid id ∧ (commit env db n c sz).status = 201 ∧
        ∀ i, i < env.Files.length → env.ReadFileErr i = false ∧ env.UploadErr i = false) := by
  cases hI : env.InsertErr with
  | true => simp [commit, hI] at hins
  | false =>
    cases hdb : db.insertEmote env.InsertedID (newEmote n c sz) with
    | none => simp [commit, hI, hdb] at hins
    | some db1 =>
      cases hid : env.InsertedID with
      | other raw =>
        have hc : commit env db n c sz =
            ⟨500, "", [Event.EmotesInsert (newEmote n c sz) (some (DocID.other raw)),
              Event.EmotesDelete (DocID.other raw)],
              if env.DeleteErr then db1 else db1.deleteEmote (DocID.other raw)⟩ := by
          simp only [commit, hI, hdb, Bool.false_eq_true, ↓reduceIte]
          rw [hid]
        rw [hid] at hdb
        rw [hc] at hins ⊢
        simp only [List.mem_cons, Event.EmotesInsert.injEq, Option.some.injEq, List.mem_singleton,
          reduceCtorEq, or_false, List.not_mem_nil] at hins
        obtain ⟨rfl, rfl⟩ := hins
        refine ⟨rfl, rfl, fun _ => ⟨rfl, by simp, by simp, ?_⟩, by simp⟩
        intro hd
        simp only [hd, Bool.false_eq_true, ↓reduceIte]
        rw [insertEmote_deleteEmote _ _ _ _ hdb]
        exact ⟨rfl, insertEmote_fresh _ _ _ _ hdb⟩
      | oid _id =>
        have hup := uploadAll_errored env _id env.Files 0
        simp only [Nat.zero_add] at hup
        cases herr : (uploadAll env _id 0 env.Files).2 with
        | true =>
          have hc : commit env db n c sz =
              ⟨500, "", [Event.EmotesInsert (newEmote n c sz) (some (DocID.oid _id))] ++
                (uploadAll env _id 0 env.Files).1 ++ [Event.EmotesDelete (DocID.oid _id)],
                if env.DeleteErr then db1 else db1.deleteEmote (DocID.oid _id)⟩ := by
            simp only [commit, hI, hdb, Bool.false_eq_true, ↓reduceIte]
            rw [hid]
            simp only [herr, ↓reduceIte]
          rw [hid] at hdb
          rw [hc] at hins ⊢
          simp only [List.cons_append, List.nil_append, List.mem_cons, List.mem_append, List.mem_singleton, List.not_mem_nil, reduceCtorEq, Event.EmotesInsert.injEq, Event.EmotesSetStatus.injEq, Option.some.injEq, or_false, false_or] at hins
          have hk : e = newEmote n c sz ∧ key = DocID.oid _id := by
            rcases hins with h | h
            · exact h
            · exact (mem_uploadAll_not_write env _id env.Files 0 _ h rfl).elim
          obtain ⟨rfl, rfl⟩ := hk
          refine ⟨rfl, rfl, fun _ => ⟨rfl, by simp, ?_, ?_⟩, ?_⟩
          · intro id s hs
            simp only [List.cons_append, List.nil_append, List.mem_cons, List.mem_append, List.mem_singleton, List.not_mem_nil, reduceCtorEq, Event.EmotesInsert.injEq, Event.EmotesSetStatus.injEq, Option.some.injEq, or_false, false_or] at hs
            exact mem_uploadAll_not_write env _id env.Files 0 _ hs rfl
          · intro hd
            simp only [hd, Bool.false_eq_true, ↓reduceIte]
            rw [insertEmote_deleteEmote _ _ _ _ hdb]
            exact ⟨rfl, insertEmote_fresh _ _ _ _ hdb⟩
          · intro id s hs
            simp only [List.cons_append, List.nil_append, List.mem_cons, List.mem_append, List.mem_singleton, List.not_mem_nil, reduceCtorEq, Event.EmotesInsert.injEq, Event.EmotesSetStatus.injEq, Option.some.injEq, or_false, false_or] at hs
            exact (mem_uploadAll_not_write env _id env.Files 0 _ hs rfl).elim
        | false =>
          have hc : commit env db n c sz =
              ⟨201, "\x7b\"status\":201,\"id\":\"" ++ Hex _id ++ "\"\x7d",
                [Event.EmotesInsert (newEmote n c sz) (some (DocID.oid _id))] ++
                  (uploadAll env _id 0 env.Files).1 ++
                  [Event.EmotesSetStatus _id EmoteStatus.Live, Event.Discord _id],
                if env.UpdateErr then db1 else db1.setEmoteStatus _id EmoteStatus.Live⟩ := by
            simp only [commit, hI, hdb, Bool.false_eq_true, ↓reduceIte]
            rw [hid]
            simp only [herr, Bool.false_eq_true, ↓reduceIte]
          rw [hc] at hins ⊢
          simp only [List.cons_append, List.nil_append, List.mem_cons, List.mem_append, List.mem_singleton, List.not_mem_nil, reduceCtorEq, Event.EmotesInsert.injEq, Event.EmotesSetStatus.injEq, Option.some.injEq, or_false, false_or] at hins
          have hk : e = newEmote n c sz ∧ key = DocID.oid _id := by
            rcases hins with h | h
            · exact h
            · exact (mem_uploadAll_not_write env _id env.Files 0 _ h rfl).elim
          obtain ⟨rfl, rfl⟩ := hk
          have hnone : ∀ i, i < env.Files.length →
              env.ReadFileErr i = false ∧ env.UploadErr i = false := by
            intro i hi
            by_contra hcon
            have : (uploadAll env _id 0 env.Files).2 = true := by
              rw [hup]
              refine ⟨i, hi, ?_⟩
              cases h1 : env.ReadFileErr i <;> cases h2 : env.UploadErr i <;> simp_all
            rw [herr] at this
            cases this
          refine ⟨rfl, rfl, fun hf => ?_, ?_⟩
          · obtain ⟨i, hi, hf⟩ := hf
            have := hnone i hi
            rcases hf with hf | hf
            · rw [this.1] at hf; cases hf
            · rw [this.2] at hf; cases hf
          · intro id s hs
            simp only [List.cons_append, List.nil_append, List.mem_cons, List.mem_append, List.mem_singleton, List.not_mem_nil, reduceCtorEq, Event.EmotesInsert.injEq, Event.EmotesSetStatus.injEq, Option.some.injEq, or_false, false_or] at hs
            rcases hs with hs | hs
            · exact (mem_uploadAll_not_write env _id env.Files 0 _ hs rfl).elim
            · obtain ⟨rfl, rfl⟩ := hs
              exact ⟨rfl, rfl, rfl, hnone⟩

theorem mem_of_reachesCommit (env : CreateEnv) (db : DB) (r : Response) (pre post : List Event)
    (n : String) (c : ObjectID) (sz : Sizes) (h : ReachesCommit env db r pre post n c sz)
    (e : Event) (hw : e.isEmotesWrite = true) :
    e ∈ r.trace ↔ e ∈ (commit env db n c sz).trace := by
  obtain ⟨h1, h2, h3, -⟩ := h
  rw [h3]
  simp only [List.mem_append]
  constructor
  · rintro ((he | he) | he)
    · have := h1 e he; rw [hw] at this; cases this
    · exact he
    · have := h2 e he; rw [hw] at this; cases this
  · intro he; exact Or.inl (Or.inr he)

/-- C2: in the ingest handler, once the record has been inserted (with status
Processing, under the identity the store returned): if the read or the upload of
at least one of the N rendition files fails, the handler returns 500, issues the
delete of the record with the inserted identity, issues no status update at all,
and with a delete that succeeds the store is as before the run and holds no
record with that identity; and an update to Live is issued only when the read and
the upload of every one of the N files succeeded. -/
theorem CreateRoute_failed_upload_rolls_back (env : CreateEnv) (db : DB) (e : Emote) (key : DocID)
    (hins : Event.EmotesInsert e (some key) ∈ (CreateRoute env db).trace) :
    e.Status = EmoteStatus.Processing ∧ key = env.InsertedID ∧
      ((∃ i, i < env.Files.length ∧ (env.ReadFileErr i = true ∨ env.UploadErr i = true)) →
        (CreateRoute env db).status = 500 ∧
        Event.EmotesDelete key ∈ (CreateRoute env db).trace ∧
        (∀ id s, Event.EmotesSetStatus id s ∉ (CreateRoute env db).trace) ∧
        (env.DeleteErr = false → (CreateRoute env db).db = db ∧
          ∀ d ∈ (CreateRoute env db).db.emotes, d.key ≠ key)) ∧
      (∀ id s, Event.EmotesSetStatus id s ∈ (CreateRoute env db).trace →
        s = EmoteStatus.Live ∧ key = DocID.oid id ∧
        ∀ i, i < env.Files.length → env.ReadFileErr i = false ∧ env.UploadErr i = false) := by
  rcases CreateRoute_shape env db with h | ⟨pre, post, n, c, sz, h⟩
  · have := h.1 _ hins
    cases this
  · have hm := mem_of_reachesCommit env db _ pre post n c sz h
    obtain ⟨h1, h2, h3, h4⟩ := commit_spec env db n c sz e key ((hm (Event.EmotesInsert e (some key)) rfl).mp hins)
    obtain ⟨-, -, -, hst, -, hdb⟩ := h
    refine ⟨h1, h2, fun hf => ?_, fun id s hs => ?_⟩
    · obtain ⟨a, b, c1, d⟩ := h3 hf
      refine ⟨hst.trans a, (hm (Event.EmotesDelete key) rfl).mpr b,
        fun id s hs => c1 id s ((hm (Event.EmotesSetStatus id s) rfl).mp hs), fun hd => ?_⟩
      rw [hdb]
      exact d hd
    · obtain ⟨a, b, -, d⟩ := h4 id s ((hm (Event.EmotesSetStatus id s) rfl).mp hs)
      exact ⟨a, b, d⟩

/-- Witness of `CreateRoute_failed_upload_rolls_back`: four tiers, the upload of
the third fails. -/
theorem CreateRoute_failed_upload_rolls_back_witness :
    (CreateRoute tierThreeFailsEnv emptyDB).status = 500 ∧
      Event.EmotesDelete (DocID.oid 7) ∈ (CreateRoute tierThreeFailsEnv emptyDB).trace ∧
      (∀ id s, Event.EmotesSetStatus id s ∉ (CreateRoute tierThreeFailsEnv emptyDB).trace) ∧
      (CreateRoute tierThreeFailsEnv emptyDB).db = emptyDB :=
  have h := (CreateRoute_failed_upload_rolls_back tierThreeFailsEnv emptyDB
    (newEmote "wave" 1 ⟨[10, 10, 10, 10], [10, 10, 10, 10]⟩) (DocID.oid 7) (by decide)).2.2.1
    ⟨2, by decide, Or.inr rfl⟩
  ⟨h.1, h.2.1, h.2.2.1, (h.2.2.2 rfl).1⟩

/-- C7: for a GIF upload that reaches the decoder and decodes to `n` frames: if
`n > 1024` the handler returns 400 with no sizing, transcoding, insert, upload or
other pipeline call and leaves the store untouched; if `n <= 1024` the decoder
stage yields `getGifDimensions` and the handler goes on with the pipeline. -/
theorem CreateRoute_frame_ceiling (env : CreateEnv) (db : DB) (usr : User) (st : Form)
    (evs : List Event) (g : GIF)
    (husr : env.usr = some usr)
    (hperm : usr.HasPermission RolePermission.EmoteCreate = true)
    (hbody : env.IsBodyStream = true) (hmk : env.MkdirErr = false)
    (hform : readParts env usr = Except.ok st) (hname : st.emoteName ≠ "")
    (hauth : authorize env usr db st.channelID = (evs, none))
    (hcreated : st.created = true) (hopen : env.OpenErr = false)
    (hext : st.ext = "gif") (hg : env.GifDecodeAll = some g) :
    MAX_FRAME_COUNT = 1024 ∧
    (MAX_FRAME_COUNT < g.Image.length →
      (CreateRoute env db).status = 400 ∧
      (CreateRoute env db).body = "Your GIF exceeds the maximum amount of frames permitted. (1024)" ∧
      (∀ e ∈ (CreateRoute env db).trace, e.isPipeline = false) ∧
      (CreateRoute env db).db = db) ∧
    (g.Image.length ≤ MAX_FRAME_COUNT →
      decode env st.ext = Except.ok (getGifDimensions g) ∧
      CreateRoute env db =
        ((process env db st (getGifDimensions g).1 (getGifDimensions g).2).within evs []).within
          [Event.MkdirAll] [Event.RemoveAll]) := by
  have hev : ∀ e ∈ evs, e.isPipeline = false := by
    have := authorize_events env usr db st.channelID
    rw [hauth] at this
    exact this
  refine ⟨rfl, fun hn => ?_, fun hn => ?_⟩
  · have hd : decode env st.ext =
        Except.error (400, "Your GIF exceeds the maximum amount of frames permitted. (1024)") := by
      simp [decode, hext, hg, hn]
    have hc : CreateRoute env db =
        (Response.mk 400 "Your GIF exceeds the maximum amount of frames permitted. (1024)" evs db).within
          [Event.MkdirAll] [Event.RemoveAll] := by
      simp [CreateRoute, husr, hperm, hbody, hmk, ingest, hform, hname, hauth, hcreated, hopen, hd]
    rw [hc]
    refine ⟨rfl, rfl, ?_, rfl⟩
    intro e he
    simp only [Response.within, List.mem_append, List.mem_singleton] at he
    rcases he with (he | he) | he
    · subst he; rfl
    · exact hev e he
    · subst he; rfl
  · have hd : decode env st.ext = Except.ok (getGifDimensions g) := by
      simp [decode, hext, hg, Nat.not_lt.mpr hn]
    refine ⟨hd, ?_⟩
    simp [CreateRoute, husr, hperm, hbody, hmk, ingest, hform, hname, hauth, hcreated, hopen, hd]

/-- Witness of `CreateRoute_frame_ceiling`: 1025 frames are rejected with 400,
1024 frames pass the decoder. -/
theorem CreateRoute_frame_ceiling_witness :
    (CreateRoute (gifEnv (framesGif 1025)) emptyDB).status = 400 ∧
      decode (gifEnv (framesGif 1024)) "gif" = Except.ok (getGifDimensions (framesGif 1024)) :=
  ⟨((CreateRoute_frame_ceiling (gifEnv (framesGif 1025)) emptyDB uploader
      ⟨"wave", 1, "image/gif", "gif", true⟩ [] (framesGif 1025)
      rfl rfl rfl rfl rfl (by decide) rfl rfl rfl rfl rfl).2.1
      (by show 1024 < (List.replicate 1025 (frame 0 0 1 1)).length
          rw [List.length_replicate]; decide)).1,
    ((CreateRoute_frame_ceiling (gifEnv (framesGif 1024)) emptyDB uploader
      ⟨"wave", 1, "image/gif", "gif", true⟩ [] (framesGif 1024)
      rfl rfl rfl rfl rfl (by decide) rfl rfl rfl rfl rfl).2.2
      (by show (List.replicate 1024 (frame 0 0 1 1)).length ≤ 1024
          rw [List.length_replicate])).1⟩

theorem readPart_nameChecked (env : CreateEnv) (st st1 : Form) (p : Option Part)
    (hst : st.nameChecked env) (h : readPart env st p = Except.ok st1) : st1.nameChecked env := by
  unfold readPart at h
  split at h
  · cases h; exact hst
  · rename_i part
    split at h
    · split at h
      · cases h
      · split at h
        · cases h
        · rename_i hv
          cases h
          exact Or.inr (Or.inl (by simpa using hv))
    · split at h
      · split at h
        · cases h
        · split at h
          · cases h
          · cases h; exact hst
      · split at h
        · rename_i hemote
          have keyT : ∀ (c : ObjectID) (ct ext : String) (b : Bool), Form.nameChecked env
              ⟨TrimSuffix part.FileName (filepathExt part.FileName), c, ct, ext, b⟩ :=
            fun _ _ _ _ => Or.inr (Or.inr ⟨part, hemote, rfl⟩)
          have keyF : ∀ (c : ObjectID) (ct ext : String) (b : Bool), Form.nameChecked env
              ⟨st.emoteName, c, ct, ext, b⟩ := fun _ _ _ _ => hst
          repeat' split at h
          all_goals first
            | (cases h; done)
            | (cases h; exact keyT _ _ _ _)
            | (cases h; exact keyF _ _ _ _)
        · cases h; exact hst

theorem readParts_nameChecked (env : CreateEnv) (usr : User) (st : Form)
    (h : readParts env usr = Except.ok st) : st.nameChecked env := by
  unfold readParts at h
  simp only [bind, Except.bind] at h
  split at h
  · cases h
  · rename_i st1 h1
    split at h
    · cases h
    · rename_i st2 h2
      exact readPart_nameChecked env st2 st _
        (readPart_nameChecked env st1 st2 _
          (readPart_nameChecked env _ st1 _ (Or.inl rfl) h1) h2) h

theorem commit_insert_emote (env : CreateEnv) (db : DB) (n : String) (c : ObjectID) (sz : Sizes)
    (e : Emote) (r : Option DocID)
    (h : Event.EmotesInsert e r ∈ (commit env db n c sz).trace) : e = newEmote n c sz := by
  unfold commit at h
  simp only at h
  repeat' split at h
  all_goals
    simp only [List.cons_append, List.nil_append, List.mem_cons, List.mem_append,
      List.mem_singleton, List.not_mem_nil, reduceCtorEq, Event.EmotesInsert.injEq,
      or_false, false_or] at h
  all_goals first
    | exact h.1
    | (rcases h with h | h
       · exact h.1
       · exact absurd rfl (mem_uploadAll_not_write _ _ _ _ _ h))

theorem process_insert_name (env : CreateEnv) (db : DB) (st : Form) (w h : Int)
    (e : Emote) (r : Option DocID)
    (hins : Event.EmotesInsert e r ∈ (process env db st w h).trace) : e.Name = st.emoteName := by
  unfold process at hins
  split at hins
  · rename_i evs hres
    have := resize_events env w h env.Files 0 ⟨[0, 0, 0, 0], [0, 0, 0, 0]⟩ _
      (by rw [hres]; exact hins)
    cases this
  · rename_i evs sz hres
    simp only [Response.within, List.append_nil, List.mem_append] at hins
    rcases hins with hins | hins
    · have := resize_events env w h env.Files 0 ⟨[0, 0, 0, 0], [0, 0, 0, 0]⟩ _
        (by rw [hres]; exact hins)
      cases this
    · rw [commit_insert_emote env db _ _ sz e r hins]; rfl

theorem ingest_insert_name (env : CreateEnv) (usr : User) (db : DB) (e : Emote)
    (r : Option DocID) (hins : Event.EmotesInsert e r ∈ (ingest env usr db).trace) :
    ∃ st, readParts env usr = Except.ok st ∧ st.emoteName ≠ "" ∧ e.Name = st.emoteName := by
  unfold ingest at hins
  split at hins
  · cases hins
  · rename_i st hrd
    split at hins
    · cases hins
    · rename_i hname
      have hau := authorize_events env usr db st.channelID
      split at hins
      · rename_i evs status detail hauth
        rw [hauth] at hau
        have := hau _ hins
        cases this
      · rename_i evs hauth
        rw [hauth] at hau
        split at hins
        · have := hau _ hins
          cases this
        · split at hins
          · have := hau _ hins
            cases this
          · rename_i ogWidth ogHeight hdec
            simp only [Response.within, List.append_nil, List.mem_append] at hins
            rcases hins with hins | hins
            · have := hau _ hins
              cases this
            · exact ⟨st, hrd, hname, process_insert_name env db st _ _ e r hins⟩

theorem CreateRoute_inserted_name_checked (env : CreateEnv) (db : DB) (e : Emote)
    (r : Option DocID) (hins : Event.EmotesInsert e r ∈ (CreateRoute env db).trace) :
    e.Name ≠ "" ∧ (env.ValidateEmoteName e.Name = true ∨
      ∃ p : Part, p.FormName = "emote" ∧ e.Name = TrimSuffix p.FileName (filepathExt p.FileName)) := by
  unfold CreateRoute at hins
  split at hins
  · cases hins
  · rename_i usr husr
    split at hins
    · cases hins
    · split at hins
      · cases hins
      · split at hins
        · simp only [List.mem_singleton, reduceCtorEq] at hins
        · simp only [Response.within, List.mem_append, List.mem_singleton, reduceCtorEq,
            false_or, or_false] at hins
          obtain ⟨st, hrd, hne, hname⟩ := ingest_insert_name env usr db e r hins
          rw [hname]
          refine ⟨hne, ?_⟩
          rcases readParts_nameChecked env usr st hrd with h | h | h
          · exact absurd h hne
          · exact Or.inl h
          · exact Or.inr h

/-- C11, the code at the failing input: the body holds the file part alone, its
file name is `bad name!.gif`, and the validation rejects `bad name!`; the handler
infers that name, inserts the record under it and returns 201, while the same
name sent in a `name` part is refused with 400 and nothing is inserted. -/
theorem CreateRoute_inferred_name_not_validated :
    inferredNameEnv.ValidateEmoteName "bad name!" = false ∧
      (CreateRoute inferredNameEnv emptyDB).status = 201 ∧
      Event.EmotesInsert (newEmote "bad name!" 1 ⟨[10, 10, 10, 10], [10, 10, 10, 10]⟩)
        (some (DocID.oid 7)) ∈ (CreateRoute inferredNameEnv emptyDB).trace ∧
      (CreateRoute inferredNameEnv emptyDB).db.emotes.map (fun d => d.emote.Name) = ["bad name!"] ∧
      (CreateRoute statedNameEnv emptyDB).status = 400 ∧
      (CreateRoute statedNameEnv emptyDB).body = "Invalid Emote Name" ∧
      (CreateRoute statedNameEnv emptyDB).db = emptyDB := by
  refine ⟨by decide, by decide, by decide, by decide, by decide, by decide, by decide⟩

theorem resize_head (env : CreateEnv) (w h : Int) (i : Nat) (f : FileMeta) (rest : List FileMeta)
    (sz : Sizes) :
    Event.GetSizeRatio w h f.size ∈ (resize env w h i (f :: rest) sz).1 ∧
      Event.Convert f.scope (env.GetSizeRatio w h f.size).1 (env.GetSizeRatio w h f.size).2 ∈
        (resize env w h i (f :: rest) sz).1 := by
  unfold resize
  simp only
  split <;> simp

theorem process_trace_resize (env : CreateEnv) (db : DB) (st : Form) (w h : Int) (e : Event)
    (he : e ∈ (resize env w h 0 env.Files ⟨[0, 0, 0, 0], [0, 0, 0, 0]⟩).1) :
    e ∈ (process env db st w h).trace := by
  unfold process
  split
  · rename_i evs hres
    rw [hres] at he; exact he
  · rename_i evs sz hres
    rw [hres] at he
    simp only [Response.within, List.append_nil, List.mem_append]
    exact Or.inl he

/-- C12, as stated, fails: a GIF whose only frame is empty at the origin (and a
GIF with no frame) decodes to `0 x 0`, and the handler calls `GetSizeRatio` with
these dimensions, runs the transcoding command and inserts the record. -/
theorem CreateRoute_zero_size_not_rejected :
    getGifDimensions emptyFrameGif = (0, 0) ∧ getGifDimensions noFrameGif = (0, 0) ∧
      Event.GetSizeRatio 0 0 "32x32" ∈ (CreateRoute (gifEnv emptyFrameGif) emptyDB).trace ∧
      Event.Convert "1x" 0 0 ∈ (CreateRoute (gifEnv emptyFrameGif) emptyDB).trace ∧
      (CreateRoute (gifEnv emptyFrameGif) emptyDB).status = 201 ∧
      ¬ ∀ (env : CreateEnv) (db : DB) (usr : User) (st : Form) (w h : Int),
          env.usr = some usr → readParts env usr = Except.ok st →
          decode env st.ext = Except.ok (w, h) → (w = 0 ∨ h = 0) →
          ∀ e ∈ (CreateRoute env db).trace, e.isPipeline = false := by
  have h1 : Event.GetSizeRatio 0 0 "32x32" ∈ (CreateRoute (gifEnv emptyFrameGif) emptyDB).trace := by
    decide
  refine ⟨by decide, by decide, h1, by decide, by decide, fun h => ?_⟩
  have := h (gifEnv emptyFrameGif) emptyDB uploader ⟨"wave", 1, "image/gif", "gif", true⟩ 0 0
    rfl rfl rfl (Or.inl rfl) _ h1
  cases this

/-- C12, amended: for a run that reaches the decoder, a decoding failure or a GIF
over the frame ceiling ends the run before `GetSizeRatio`, any transcoding
command and any insert; decoded dimensions `(w, h)`, zero or not, are not
checked: the handler goes on with the pipeline on them, calls `GetSizeRatio` with
them for the first tier and runs its transcoding command. -/
theorem CreateRoute_decoded_size_reaches_planner (env : CreateEnv) (db : DB) (usr : User)
    (st : Form) (evs : List Event)
    (husr : env.usr = some usr)
    (hperm : usr.HasPermission RolePermission.EmoteCreate = true)
    (hbody : env.IsBodyStream = true) (hmk : env.MkdirErr = false)
    (hform : readParts env usr = Except.ok st) (hname : st.emoteName ≠ "")
    (hauth : authorize env usr db st.channelID = (evs, none))
    (hcreated : st.created = true) (hopen : env.OpenErr = false) :
    (∀ status detail, decode env st.ext = Except.error (status, detail) →
        (CreateRoute env db).status = status ∧
        (∀ e ∈ (CreateRoute env db).trace, e.isPipeline = false) ∧
        (CreateRoute env db).db = db) ∧
      (∀ w h, decode env st.ext = Except.ok (w, h) →
        CreateRoute env db =
          ((process env db st w h).within evs []).within [Event.MkdirAll] [Event.RemoveAll] ∧
        ∀ f rest, env.Files = f :: rest →
          Event.GetSizeRatio w h f.size ∈ (CreateRoute env db).trace ∧
          Event.Convert f.scope (env.GetSizeRatio w h f.size).1 (env.GetSizeRatio w h f.size).2 ∈
            (CreateRoute env db).trace) := by
  have hev : ∀ e ∈ evs, e.isPipeline = false := by
    have := authorize_events env usr db st.channelID
    rw [hauth] at this
    exact this
  refine ⟨fun status detail hd => ?_, fun w h hd => ?_⟩
  · have hc : CreateRoute env db =
        (Response.mk status detail evs db).within [Event.MkdirAll] [Event.RemoveAll] := by
      simp [CreateRoute, husr, hperm, hbody, hmk, ingest, hform, hname, hauth, hcreated, hopen, hd]
    rw [hc]
    refine ⟨rfl, ?_, rfl⟩
    intro e he
    simp only [Response.within, List.mem_append, List.mem_singleton] at he
    rcases he with (he | he) | he
    · subst he; rfl
    · exact hev e he
    · subst he; rfl
  · have hc : CreateRoute env db =
        ((process env db st w h).within evs []).within [Event.MkdirAll] [Event.RemoveAll] := by
      simp [CreateRoute, husr, hperm, hbody, hmk, ingest, hform, hname, hauth, hcreated, hopen, hd]
    refine ⟨hc, fun f rest hf => ?_⟩
    have hr := resize_head env w h 0 f rest ⟨[0, 0, 0, 0], [0, 0, 0, 0]⟩
    rw [← hf] at hr
    rw [hc]
    simp only [Response.within, List.append_nil, List.mem_append, List.mem_singleton]
    exact ⟨Or.inl (Or.inr (Or.inr (process_trace_resize env db st w h _ hr.1))),
      Or.inl (Or.inr (Or.inr (process_trace_resize env db st w h _ hr.2)))⟩

/-- Witness of `CreateRoute_decoded_size_reaches_planner`: the GIF with one empty
frame decodes to `0 x 0`, which goes to `GetSizeRatio` for the tier `32x32`. -/
theorem CreateRoute_decoded_size_reaches_planner_witness :
    Event.GetSizeRatio 0 0 "32x32" ∈ (CreateRoute (gifEnv emptyFrameGif) emptyDB).trace ∧
      Event.Convert "1x" 0 0 ∈ (CreateRoute (gifEnv emptyFrameGif) emptyDB).trace :=
  ((CreateRoute_decoded_size_reaches_planner (gifEnv emptyFrameGif) emptyDB uploader
    ⟨"wave", 1, "image/gif", "gif", true⟩ [] rfl rfl rfl rfl rfl (by decide) rfl rfl rfl).2
    0 0 rfl).2 ⟨"/tmp/w/1x", "1x", "32x32"⟩ _ rfl

/-! ## `DeleteEmote` -/

theorem deleteAuth_events (env : DeleteEnv) (usr : User) (db : DB) (emote : Emote) :
    ∀ e ∈ (deleteAuth env usr db emote).1, e.isDeleteWrite = false := by
  intro e he
  unfold deleteAuth at he
  split at he
  · split at he
    · split at he
      · simp only [List.mem_singleton] at he; subst he; rfl
      · split at he <;> (simp only [List.mem_singleton] at he; subst he; rfl)
    · cases he
  · cases he

theorem findEmoteNotDeleted_id (db : DB) (id : ObjectID) (emote : Emote)
    (h : db.findEmoteNotDeleted id = some emote) : emote.ID = id := by
  unfold DB.findEmoteNotDeleted at h
  cases hf : db.emotes.find? fun d =>
      decide (d.key = DocID.oid id ∧ d.emote.Status ≠ EmoteStatus.Deleted) with
  | none => rw [hf] at h; cases h
  | some d =>
    rw [hf] at h
    simp only [Option.map, Option.some.injEq] at h
    rw [← h]; rfl

theorem expireAll_eq (emote : Emote) :
    expireAll emote =
      [Event.Expire ("emote/" ++ Hex emote.ID) 1, Event.Expire ("emote/" ++ Hex emote.ID) 2,
        Event.Expire ("emote/" ++ Hex emote.ID) 3, Event.Expire ("emote/" ++ Hex emote.ID) 4] := rfl

theorem DeleteEmote_cases (env : DeleteEnv) (args : DeleteArgs) (db : DB) :
    (∃ err, (DeleteEmote env args db).result = Except.error err ∧
        (DeleteEmote env args db).db = db ∧
        (∀ e ∈ (DeleteEmote env args db).trace, e.isPurge = false ∧
          (e.isDeleteWrite = true → env.UpdateErr = true)) ∧
        (args.Reason = "" → err = ResolverError.ErrNoReason ∧ (DeleteEmote env args db).trace = [])) ∨
      ∃ usr id emote evs, args.Reason ≠ "" ∧ env.usr = some usr ∧
        ObjectIDFromHex args.ID = some id ∧ env.FindErr = false ∧
        db.findEmoteNotDeleted id = some emote ∧ deleteAuth env usr db emote = (evs, none) ∧
        env.UpdateErr = false ∧
        (DeleteEmote env args db).result = Except.ok true ∧
        (DeleteEmote env args db).trace =
          Event.EmotesFindNotDeleted id :: evs ++
            [Event.EmotesSetStatus id EmoteStatus.Deleted,
              Event.AuditInsert (deleteAudit usr id args.Reason)] ++
            expireAll emote ++ [Event.UsersPull id, Event.Discord emote.ID] ∧
        (DeleteEmote env args db).db = afterDelete env usr args db id := by
  unfold DeleteEmote
  split
  · rename_i hr
    exact Or.inl ⟨_, rfl, rfl, fun e he => (by cases he), fun _ => ⟨rfl, rfl⟩⟩
  · rename_i hr
    split
    · exact Or.inl ⟨_, rfl, rfl, fun e he => (by cases he), fun h => absurd h hr⟩
    · rename_i usr husr
      split
      · exact Or.inl ⟨_, rfl, rfl, fun e he => (by cases he), fun h => absurd h hr⟩
      · rename_i id hid
        split
        · refine Or.inl ⟨_, rfl, rfl, fun e he => ?_, fun h => absurd h hr⟩
          simp only [List.mem_singleton] at he; subst he
          exact ⟨rfl, fun h => by cases h⟩
        · rename_i hfe
          split
          · refine Or.inl ⟨_, rfl, rfl, fun e he => ?_, fun h => absurd h hr⟩
            simp only [List.mem_singleton] at he; subst he
            exact ⟨rfl, fun h => by cases h⟩
          · rename_i emote hfind
            have hau := deleteAuth_events env usr db emote
            split
            · rename_i evs err hauth
              rw [hauth] at hau
              refine Or.inl ⟨_, rfl, rfl, fun e he => ?_, fun h => absurd h hr⟩
              rcases List.mem_cons.mp he with he | he
              · subst he; exact ⟨rfl, fun h => by cases h⟩
              · have := hau e he
                refine ⟨?_, fun h => by rw [this] at h; cases h⟩
                cases e <;> first | rfl | cases this
            · rename_i evs hauth
              rw [hauth] at hau
              split
              · rename_i hu
                refine Or.inl ⟨_, rfl, rfl, fun e he => ?_, fun h => absurd h hr⟩
                simp only [List.cons_append, List.mem_cons, List.mem_append, List.mem_singleton,
                  List.not_mem_nil, or_false] at he
                rcases he with he | he | he
                · subst he; exact ⟨rfl, fun h => by cases h⟩
                · have := hau e he
                  refine ⟨?_, fun h => by rw [this] at h; cases h⟩
                  cases e <;> first | rfl | cases this
                · subst he; exact ⟨rfl, fun _ => hu⟩
              · rename_i hu
                refine Or.inr ⟨usr, id, emote, evs, hr, husr, hid, by simpa using hfe, hfind, hauth,
                  by simpa using hu, rfl, rfl, rfl⟩

theorem findEmoteNotDeleted_of_deleted (db : DB) (id : ObjectID) (huniq : db.uniqueKeys)
    (hdel : db.statusOf id = some EmoteStatus.Deleted) : db.findEmoteNotDeleted id = none := by
  unfold DB.statusOf at hdel
  cases hf : db.emotes.find? fun d => decide (d.key = DocID.oid id) with
  | none => rw [hf] at hdel; cases hdel
  | some d0 =>
    rw [hf] at hdel
    simp only [Option.map, Option.some.injEq] at hdel
    have hk0 : d0.key = DocID.oid id := by simpa using List.find?_some hf
    have hm0 := List.mem_of_find?_eq_some hf
    unfold DB.findEmoteNotDeleted
    cases hg : db.emotes.find? fun d =>
        decide (d.key = DocID.oid id ∧ d.emote.Status ≠ EmoteStatus.Deleted) with
    | none => rfl
    | some d =>
      have hp := List.find?_some hg
      simp only [ne_eq, decide_eq_true_eq] at hp
      have hm := List.mem_of_find?_eq_some hg
      have : d = d0 := List.inj_on_of_nodup_map huniq hm hm0 (hp.1.trans hk0.symm)
      subst this
      exact absurd hdel hp.2

/-- C4: for every asset whose stored status is Deleted, a `DeleteEmote` call with
its ID and a non-empty reason makes no status update, no audit insert, no
`Expire` call and no pull, and leaves the store as it was; for any logged-in
caller, the store answering the lookup, it returns the unknown-emote error after
the lookup alone. -/
theorem DeleteEmote_already_deleted (env : DeleteEnv) (args : DeleteArgs) (db : DB) (id : ObjectID)
    (hreason : args.Reason ≠ "") (hid : ObjectIDFromHex args.ID = some id)
    (huniq : db.uniqueKeys) (hdel : db.statusOf id = some EmoteStatus.Deleted) :
    (∀ e ∈ (DeleteEmote env args db).trace, e.isDeleteWrite = false) ∧
      (DeleteEmote env args db).db = db ∧
      (∀ usr, env.usr = some usr → env.FindErr = false →
        (DeleteEmote env args db).result = Except.error ResolverError.ErrUnknownEmote ∧
        (DeleteEmote env args db).trace = [Event.EmotesFindNotDeleted id]) := by
  have hnone := findEmoteNotDeleted_of_deleted db id huniq hdel
  cases hu : env.usr with
  | none =>
    have hc : DeleteEmote env args db = ⟨Except.error ResolverError.ErrLoginRequired, [], db⟩ := by
      simp [DeleteEmote, hreason, hu]
    rw [hc]
    exact ⟨fun e he => (by cases he), rfl, fun usr h => (by cases h)⟩
  | some usr =>
    cases hfe : env.FindErr with
    | true =>
      have hc : DeleteEmote env args db =
          ⟨Except.error ResolverError.ErrInternalServer, [Event.EmotesFindNotDeleted id], db⟩ := by
        simp [DeleteEmote, hreason, hu, hid, hfe]
      rw [hc]
      refine ⟨fun e he => ?_, rfl, fun usr _ h => (by cases h)⟩
      simp only [List.mem_singleton] at he; subst he; rfl
    | false =>
      have hc : DeleteEmote env args db =
          ⟨Except.error ResolverError.ErrUnknownEmote, [Event.EmotesFindNotDeleted id], db⟩ := by
        simp [DeleteEmote, hreason, hu, hid, hfe, hnone]
      rw [hc]
      refine ⟨fun e he => ?_, rfl, fun usr _ _ => ⟨rfl, rfl⟩⟩
      simp only [List.mem_singleton] at he; subst he; rfl

/-- Witness of `DeleteEmote_already_deleted`: the owner-independent moderator
deletes the emote `7`, which is Deleted already. -/
theorem DeleteEmote_already_deleted_witness :
    (DeleteEmote (quietDeleteEnv (some moderator)) deleteArgs (waveDB EmoteStatus.Deleted)).result =
        Except.error ResolverError.ErrUnknownEmote ∧
      (DeleteEmote (quietDeleteEnv (some moderator)) deleteArgs (waveDB EmoteStatus.Deleted)).db =
        waveDB EmoteStatus.Deleted :=
  have h := DeleteEmote_already_deleted (quietDeleteEnv (some moderator)) deleteArgs
    (waveDB EmoteStatus.Deleted) 7 (by decide) (by decide) (by decide) (by decide)
  ⟨(h.2.2 moderator rfl rfl).1, h.2.1⟩

theorem afterDelete_emotes (env : DeleteEnv) (usr : User) (args : DeleteArgs) (db : DB)
    (id : ObjectID) :
    (afterDelete env usr args db id).emotes = (db.setEmoteStatus id EmoteStatus.Deleted).emotes := by
  unfold afterDelete
  simp only
  split <;> split <;> rfl

/-- C5: in `DeleteEmote`, once the update setting status Deleted has been issued
and has succeeded, the call returns `(true, nil)`, `Expire` is invoked exactly
once for each tier 1, 2, 3, 4 on the object `emote/<hex of the ID>` and for
nothing else, the pull is issued, and the `emotes` collection afterwards is the
one the status update left, whichever `Expire` calls fail and whether or not the
audit insert or the pull fails. -/
theorem DeleteEmote_purges_every_tier (env : DeleteEnv) (args : DeleteArgs) (db : DB)
    (id : ObjectID)
    (hupd : Event.EmotesSetStatus id EmoteStatus.Deleted ∈ (DeleteEmote env args db).trace)
    (hok : env.UpdateErr = false) :
    (DeleteEmote env args db).result = Except.ok true ∧
      (∀ i, 1 ≤ i → i ≤ 4 →
        (DeleteEmote env args db).trace.count (Event.Expire ("emote/" ++ Hex id) i) = 1) ∧
      (∀ obj i, Event.Expire obj i ∈ (DeleteEmote env args db).trace →
        obj = "emote/" ++ Hex id ∧ 1 ≤ i ∧ i ≤ 4) ∧
      Event.UsersPull id ∈ (DeleteEmote env args db).trace ∧
      (DeleteEmote env args db).db.emotes = (db.setEmoteStatus id EmoteStatus.Deleted).emotes := by
  rcases DeleteEmote_cases env args db with ⟨err, -, -, hev, -⟩ |
    ⟨usr, id1, emote, evs, -, -, -, -, hfind, hauth, -, hres, htr, hdb⟩
  · have := (hev _ hupd).2 rfl
    rw [hok] at this
    cases this
  · have hau := deleteAuth_events env usr db emote
    rw [hauth] at hau
    have hemote := findEmoteNotDeleted_id db id1 emote hfind
    rw [htr, expireAll_eq, hemote] at hupd
    have hidd : id = id1 := by
      simp only [List.cons_append, List.nil_append, List.mem_cons, List.mem_append,
        List.mem_singleton, List.not_mem_nil, reduceCtorEq, Event.EmotesSetStatus.injEq,
        or_false, false_or, and_true] at hupd
      rcases hupd with h | h
      · have := hau _ h; cases this
      · exact h
    subst hidd
    have hcnt : ∀ i, List.count (Event.Expire ("emote/" ++ Hex id) i) evs = 0 := fun i =>
      List.count_eq_zero_of_not_mem fun h => by have := hau _ h; cases this
    rw [htr, expireAll_eq, hemote, hres, hdb]
    refine ⟨rfl, ?_, ?_, ?_, afterDelete_emotes env usr args db id⟩
    · intro i h1 h4
      simp only [List.cons_append, List.nil_append, List.count_cons, List.count_append, hcnt,
        List.count_nil]
      interval_cases i <;> simp
    · intro obj i h
      simp only [List.cons_append, List.nil_append, List.mem_cons, List.mem_append,
        List.mem_singleton, List.not_mem_nil, reduceCtorEq, Event.Expire.injEq,
        or_false, false_or] at h
      rcases h with h | h | h | h | h
      · have := hau _ h; cases this
      · exact ⟨h.1, by omega⟩
      · exact ⟨h.1, by omega⟩
      · exact ⟨h.1, by omega⟩
      · exact ⟨h.1, by omega⟩
    · simp

/-- Witness of `DeleteEmote_purges_every_tier`: the `Expire` of tier 3, the audit
insert and the pull fail; the call still returns success. -/
theorem DeleteEmote_purges_every_tier_witness :
    (DeleteEmote tierThreeExpireFailsEnv deleteArgs (waveDB EmoteStatus.Live)).result =
        Except.ok true ∧
      (DeleteEmote tierThreeExpireFailsEnv deleteArgs (waveDB EmoteStatus.Live)).trace.count
        (Event.Expire ("emote/" ++ Hex 7) 3) = 1 ∧
      (DeleteEmote tierThreeExpireFailsEnv deleteArgs (waveDB EmoteStatus.Live)).db.emotes =
        (waveDB EmoteStatus.Deleted).emotes :=
  have h := DeleteEmote_purges_every_tier tierThreeExpireFailsEnv deleteArgs
    (waveDB EmoteStatus.Live) 7 (by decide) rfl
  ⟨h.1, h.2.1 3 (by decide) (by decide), h.2.2.2.2.trans (by decide)⟩

/-- C6: whenever `DeleteEmote` returns an error it has issued no `Expire` call
and no pull and the store is as it was; any `Expire` or pull in a run comes
after the status update to Deleted, which returned without error; and with an
empty reason the call fails with `ErrNoReason` before any call at all. -/
theorem DeleteEmote_error_no_purge (env : DeleteEnv) (args : DeleteArgs) (db : DB) :
    (∀ err, (DeleteEmote env args db).result = Except.error err →
        (∀ e ∈ (DeleteEmote env args db).trace, e.isPurge = false) ∧
        (DeleteEmote env args db).db = db) ∧
      (∀ e ∈ (DeleteEmote env args db).trace, e.isPurge = true →
        env.UpdateErr = false ∧ (DeleteEmote env args db).result = Except.ok true ∧
        ∃ pre post id, (DeleteEmote env args db).trace =
            pre ++ Event.EmotesSetStatus id EmoteStatus.Deleted :: post ∧
          ∀ e1 ∈ pre, e1.isPurge = false) ∧
      (args.Reason = "" →
        (DeleteEmote env args db).result = Except.error ResolverError.ErrNoReason ∧
        (DeleteEmote env args db).trace = [] ∧ (DeleteEmote env args db).db = db) := by
  rcases DeleteEmote_cases env args db with ⟨err, hres, hdb, hev, hr⟩ |
    ⟨usr, id, emote, evs, hr, -, -, -, hfind, hauth, hu, hres, htr, hdb⟩
  · refine ⟨fun _ _ => ⟨fun e he => (hev e he).1, hdb⟩, fun e he hp => ?_, fun h => ?_⟩
    · rw [(hev e he).1] at hp; cases hp
    · obtain ⟨h1, h2⟩ := hr h
      rw [hres, h1]
      exact ⟨rfl, h2, hdb⟩
  · refine ⟨fun err he => ?_, fun e he hp => ⟨hu, hres, ?_⟩, fun h => absurd h hr⟩
    · rw [hres] at he; cases he
    · have hau := deleteAuth_events env usr db emote
      rw [hauth] at hau
      refine ⟨Event.EmotesFindNotDeleted id :: evs,
        Event.AuditInsert (deleteAudit usr id args.Reason) :: (expireAll emote ++
          [Event.UsersPull id, Event.Discord emote.ID]), id, ?_, ?_⟩
      · rw [htr]
        simp only [List.cons_append, List.append_assoc, List.nil_append, List.singleton_append]
      · intro e1 he1
        rcases List.mem_cons.mp he1 with h | h
        · subst h; rfl
        · have := hau _ h
          cases e1 <;> first | rfl | cases this

/-- Witness of `DeleteEmote_error_no_purge`: an empty reason, and a caller who is
neither owner nor editor nor holder of the edit-all permission. -/
theorem DeleteEmote_error_no_purge_witness :
    ((DeleteEmote (quietDeleteEnv (some moderator)) ⟨"000000000000000000000007", ""⟩
        (waveDB EmoteStatus.Live)).result = Except.error ResolverError.ErrNoReason ∧
      (DeleteEmote (quietDeleteEnv (some moderator)) ⟨"000000000000000000000007", ""⟩
        (waveDB EmoteStatus.Live)).trace = []) ∧
      (∀ e ∈ (DeleteEmote (quietDeleteEnv (some stranger)) deleteArgs (waveDB EmoteStatus.Live)).trace,
        e.isPurge = false) :=
  have h := (DeleteEmote_error_no_purge (quietDeleteEnv (some moderator))
    ⟨"000000000000000000000007", ""⟩ (waveDB EmoteStatus.Live)).2.2 rfl
  have h1 := (DeleteEmote_error_no_purge (quietDeleteEnv (some stranger)) deleteArgs
    (waveDB EmoteStatus.Live)).1 ResolverError.ErrAccessDenied (by rfl)
  ⟨⟨h.1, h.2.1⟩, h1.1⟩

/-! ## Store writes of concurrent requests -/

theorem commit_writes (env : CreateEnv) (db : DB) (n : String) (c : ObjectID) (sz : Sizes) :
    (newEmote n c sz).Status = EmoteStatus.Processing ∧
      ((commit env db n c sz).db = db ∨
        ∃ db1, db.insertEmote env.InsertedID (newEmote n c sz) = some db1 ∧
          ((commit env db n c sz).db = db1 ∨
            (commit env db n c sz).db = db1.deleteEmote env.InsertedID ∨
            ∃ id, env.InsertedID = DocID.oid id ∧
              (commit env db n c sz).db = db1.setEmoteStatus id EmoteStatus.Live)) := by
  refine ⟨rfl, ?_⟩
  unfold commit
  simp only
  split
  · exact Or.inl rfl
  · split
    · exact Or.inl rfl
    · rename_i db1 hdb1
      refine Or.inr ⟨db1, hdb1, ?_⟩
      split
      · rename_i raw hraw
        simp only [hraw]
        split
        · exact Or.inl rfl
        · exact Or.inr (Or.inl rfl)
      · rename_i _id hid
        simp only [hid]
        split
        · split
          · exact Or.inl rfl
          · exact Or.inr (Or.inl rfl)
        · split
          · exact Or.inl rfl
          · exact Or.inr (Or.inr ⟨_id, rfl, rfl⟩)

theorem map_key_setFirst (p : EmoteDoc → Bool) (s : EmoteStatus) (l : List EmoteDoc) :
    (setFirst p s l).map (·.key) = l.map (·.key) := by
  induction l with
  | nil => rfl
  | cons d ds ih =>
    unfold setFirst
    split
    · rfl
    · simp only [List.map_cons, ih]

theorem mem_setFirst_key (p : EmoteDoc → Bool) (s : EmoteStatus) (l : List EmoteDoc)
    (d : EmoteDoc) (h : d ∈ setFirst p s l) : ∃ d0 ∈ l, d0.key = d.key := by
  have : d.key ∈ (setFirst p s l).map (·.key) := List.mem_map_of_mem _ h
  rw [map_key_setFirst] at this
  obtain ⟨d0, h0, h1⟩ := List.mem_map.mp this
  exact ⟨d0, h0, h1⟩

theorem find_setFirst_ne (k id : ObjectID) (s : EmoteStatus) (l : List EmoteDoc) (h : k ≠ id) :
    (setFirst (fun d => decide (d.key = DocID.oid k)) s l).find?
        (fun d => decide (d.key = DocID.oid id)) =
      l.find? (fun d => decide (d.key = DocID.oid id)) := by
  induction l with
  | nil => rfl
  | cons d ds ih =>
    unfold setFirst
    by_cases hk : d.key = DocID.oid k
    · have hne : d.key ≠ DocID.oid id := by
        rw [hk]; intro hc; exact h (DocID.oid.inj hc)
      simp [hk, List.find?_cons, h]
    · simp only [hk, decide_False, Bool.false_eq_true, ↓reduceIte, List.find?_cons, ih]

theorem find_setFirst_eq (id : ObjectID) (s : EmoteStatus) (l : List EmoteDoc) :
    ((setFirst (fun d => decide (d.key = DocID.oid id)) s l).find?
        (fun d => decide (d.key = DocID.oid id))).map (fun d => d.emote.Status) =
      (l.find? (fun d => decide (d.key = DocID.oid id))).map (fun _ => s) := by
  induction l with
  | nil => rfl
  | cons d ds ih =>
    unfold setFirst
    by_cases hk : d.key = DocID.oid id
    · simp [hk, List.find?_cons]
    · simp only [hk, decide_False, Bool.false_eq_true, ↓reduceIte, List.find?_cons, ih]

theorem find_eraseP_ne (k id : ObjectID) (l : List EmoteDoc) (h : k ≠ id) :
    (l.eraseP (fun d => decide (d.key = DocID.oid k))).find?
        (fun d => decide (d.key = DocID.oid id)) =
      l.find? (fun d => decide (d.key = DocID.oid id)) := by
  induction l with
  | nil => rfl
  | cons d ds ih =>
    by_cases hk : d.key = DocID.oid k
    · have hne : d.key ≠ DocID.oid id := by
        rw [hk]; intro hc; exact h (DocID.oid.inj hc)
      simp [List.eraseP_cons, hk, List.find?_cons, h]
    · simp only [List.eraseP_cons, hk, decide_False, Bool.false_eq_true, cond_false,
        List.find?_cons, ih]

theorem statusOf_setEmoteStatus_ne (db : DB) (k id : ObjectID) (s : EmoteStatus) (h : k ≠ id) :
    (db.setEmoteStatus k s).statusOf id = db.statusOf id := by
  unfold DB.statusOf DB.setEmoteStatus
  simp only [find_setFirst_ne k id s db.emotes h]

theorem statusOf_setEmoteStatus_eq (db : DB) (id : ObjectID) (s : EmoteStatus) :
    (db.setEmoteStatus id s).statusOf id = (db.statusOf id).map fun _ => s := by
  unfold DB.statusOf DB.setEmoteStatus
  simp only [find_setFirst_eq, Option.map_map]
  rfl

theorem statusOf_deleteEmote_ne (db : DB) (k id : ObjectID) (h : k ≠ id) :
    (db.deleteEmote (DocID.oid k)).statusOf id = db.statusOf id := by
  unfold DB.statusOf DB.deleteEmote
  simp only [find_eraseP_ne k id db.emotes h]

theorem statusOf_insertEmote_ne (db db1 : DB) (k id : ObjectID) (e : Emote) (h : k ≠ id)
    (hins : db.insertEmote (DocID.oid k) e = some db1) : db1.statusOf id = db.statusOf id := by
  unfold DB.insertEmote at hins
  split at hins
  · cases hins
  · simp only [Option.some.injEq] at hins
    subst hins
    unfold DB.statusOf
    simp only [List.find?_append, List.find?_cons, List.find?_nil]
    have hne : ¬ (DocID.oid k = DocID.oid id) := fun hc => h (DocID.oid.inj hc)
    simp [hne]

theorem eraseP_key_absent (k : DocID) (l : List EmoteDoc) (h : (l.map (·.key)).Nodup) :
    ∀ d ∈ l.eraseP (fun d => decide (d.key = k)), d.key ≠ k := by
  induction l with
  | nil => intro d hd; cases hd
  | cons d0 ds ih =>
    simp only [List.map_cons, List.nodup_cons] at h
    by_cases hk : d0.key = k
    · simp only [List.eraseP_cons, hk, decide_True, cond_true]
      intro d hd hc
      apply h.1
      rw [hk, ← hc]
      exact List.mem_map_of_mem _ hd
    · simp only [List.eraseP_cons, hk, decide_False, cond_false, List.mem_cons]
      rintro d (hd | hd)
      · rw [hd]; exact hk
      · exact ih h.2 d hd

theorem statusOf_deleteEmote_eq (db : DB) (id : ObjectID) (h : db.uniqueKeys) :
    (db.deleteEmote (DocID.oid id)).statusOf id = none := by
  unfold DB.statusOf DB.deleteEmote
  have := eraseP_key_absent (DocID.oid id) db.emotes h
  simp only [Option.map_eq_none', List.find?_eq_none, decide_eq_true_eq]
  exact this

theorem Sys.step_inv (s s1 : Sys) (a : Action) (hinv : s.Inv) (h : s.step a = some s1) : s1.Inv := by
  obtain ⟨hnd, hused⟩ := hinv
  cases a with
  | ingestInsert id e =>
    simp only [Sys.step] at h
    split at h
    · cases hdb : s.db.insertEmote (DocID.oid id) e with
      | none => rw [hdb] at h; cases h
      | some db1 =>
        rw [hdb] at h
        simp only [Option.map_some', Option.some.injEq] at h
        subst h
        have hfresh := insertEmote_fresh _ _ _ _ hdb
        unfold DB.insertEmote at hdb
        split at hdb
        · cases hdb
        · simp only [Option.some.injEq] at hdb
          subst hdb
          constructor
          · simp only [List.map_append, List.map_cons, List.map_nil]
            refine List.Nodup.append hnd (List.nodup_singleton _) ?_
            intro k hk1 hk2
            simp only [List.mem_singleton] at hk2
            obtain ⟨d, hd, rfl⟩ := List.mem_map.mp hk1
            exact hfresh d hd hk2
          · intro d hd
            simp only [List.mem_append, List.mem_singleton] at hd
            rcases hd with hd | hd
            · obtain ⟨k, hk, hkey⟩ := hused d hd
              exact ⟨k, List.mem_cons_of_mem _ hk, hkey⟩
            · subst hd
              exact ⟨id, List.mem_cons_self _ _, rfl⟩
    · cases h
  | ingestLive id =>
    simp only [Sys.step] at h
    split at h
    · simp only [Option.some.injEq] at h
      subst h
      constructor
      · simp only [DB.setEmoteStatus, map_key_setFirst]; exact hnd
      · intro d hd
        obtain ⟨d0, h0, h1⟩ := mem_setFirst_key _ _ _ d hd
        obtain ⟨k, hk, hkey⟩ := hused d0 h0
        exact ⟨k, hk, h1 ▸ hkey⟩
    · cases h
  | ingestDelete id =>
    simp only [Sys.step] at h
    split at h
    · simp only [Option.some.injEq] at h
      subst h
      constructor
      · exact List.Nodup.sublist (List.Sublist.map _ (List.eraseP_sublist _)) hnd
      · intro d hd
        exact hused d (List.mem_of_mem_eraseP hd)
    · cases h
  | deleteFind id =>
    simp only [Sys.step] at h
    split at h
    · simp only [Option.some.injEq] at h
      subst h
      exact ⟨hnd, hused⟩
    · cases h
  | deleteUpdate id =>
    simp only [Sys.step] at h
    split at h
    · simp only [Option.some.injEq] at h
      subst h
      constructor
      · simp only [DB.setEmoteStatus, map_key_setFirst]; exact hnd
      · intro d hd
        obtain ⟨d0, h0, h1⟩ := mem_setFirst_key _ _ _ d hd
        obtain ⟨k, hk, hkey⟩ := hused d0 h0
        exact ⟨k, hk, h1 ▸ hkey⟩
    · cases h

theorem Sys.step_settled (id : ObjectID) (s s1 : Sys) (a : Action) (hinv : s.Inv)
    (hs : s.Settled id) (h : s.step a = some s1) : s1.Settled id := by
  obtain ⟨hu, hst⟩ := hs
  cases a with
  | ingestInsert k e =>
    simp only [Sys.step] at h
    split at h
    · rename_i hg
      cases hdb : s.db.insertEmote (DocID.oid k) e with
      | none => rw [hdb] at h; cases h
      | some db1 =>
        rw [hdb] at h
        simp only [Option.map_some', Option.some.injEq] at h
        subst h
        have hne : k ≠ id := fun hc => hg.2 (hc ▸ hu)
        exact ⟨List.mem_cons_of_mem _ hu, by
          show db1.statusOf id ≠ _
          rw [statusOf_insertEmote_ne _ _ _ _ _ hne hdb]; exact hst⟩
    · cases h
  | ingestLive k =>
    simp only [Sys.step] at h
    split at h
    · simp only [Option.some.injEq] at h
      subst h
      refine ⟨hu, ?_⟩
      show (s.db.setEmoteStatus k EmoteStatus.Live).statusOf id ≠ _
      by_cases hk : k = id
      · subst hk
        rw [statusOf_setEmoteStatus_eq]
        cases s.db.statusOf k <;> simp
      · rw [statusOf_setEmoteStatus_ne _ _ _ _ hk]; exact hst
    · cases h
  | ingestDelete k =>
    simp only [Sys.step] at h
    split at h
    · simp only [Option.some.injEq] at h
      subst h
      refine ⟨hu, ?_⟩
      show (s.db.deleteEmote (DocID.oid k)).statusOf id ≠ _
      by_cases hk : k = id
      · subst hk
        rw [statusOf_deleteEmote_eq _ _ hinv.1]
        simp
      · rw [statusOf_deleteEmote_ne _ _ _ hk]; exact hst
    · cases h
  | deleteFind k =>
    simp only [Sys.step] at h
    split at h
    · simp only [Option.some.injEq] at h
      subst h
      exact ⟨hu, hst⟩
    · cases h
  | deleteUpdate k =>
    simp only [Sys.step] at h
    split at h
    · simp only [Option.some.injEq] at h
      subst h
      refine ⟨hu, ?_⟩
      show (s.db.setEmoteStatus k EmoteStatus.Deleted).statusOf id ≠ _
      by_cases hk : k = id
      · subst hk
        rw [statusOf_setEmoteStatus_eq]
        cases s.db.statusOf k <;> simp
      · rw [statusOf_setEmoteStatus_ne _ _ _ _ hk]; exact hst
    · cases h

theorem Sys.step_quiet (id : ObjectID) (s s1 : Sys) (a : Action)
    (hs : s.Quiet id) (h : s.step a = some s1) : s1.Quiet id := by
  obtain ⟨hu, hni, hst⟩ := hs
  cases a with
  | ingestInsert k e =>
    simp only [Sys.step] at h
    split at h
    · rename_i hg
      cases hdb : s.db.insertEmote (DocID.oid k) e with
      | none => rw [hdb] at h; cases h
      | some db1 =>
        rw [hdb] at h
        simp only [Option.map_some', Option.some.injEq] at h
        subst h
        have hne : k ≠ id := fun hc => hg.2 (hc ▸ hu)
        refine ⟨List.mem_cons_of_mem _ hu, ?_, ?_⟩
        · intro hc
          rcases List.mem_cons.mp hc with hc | hc
          · exact hne hc.symm
          · exact hni hc
        · show db1.statusOf id = _
          rw [statusOf_insertEmote_ne _ _ _ _ _ hne hdb]; exact hst
    · cases h
  | ingestLive k =>
    simp only [Sys.step] at h
    split at h
    · rename_i hk
      simp only [Option.some.injEq] at h
      subst h
      have hne : k ≠ id := fun hc => hni (hc ▸ hk)
      refine ⟨hu, fun hc => hni (List.mem_of_mem_erase hc), ?_⟩
      show (s.db.setEmoteStatus k EmoteStatus.Live).statusOf id = _
      rw [statusOf_setEmoteStatus_ne _ _ _ _ hne]; exact hst
    · cases h
  | ingestDelete k =>
    simp only [Sys.step] at h
    split at h
    · rename_i hk
      simp only [Option.some.injEq] at h
      subst h
      have hne : k ≠ id := fun hc => hni (hc ▸ hk)
      refine ⟨hu, fun hc => hni (List.mem_of_mem_erase hc), ?_⟩
      show (s.db.deleteEmote (DocID.oid k)).statusOf id = _
      rw [statusOf_deleteEmote_ne _ _ _ hne]; exact hst
    · cases h
  | deleteFind k =>
    simp only [Sys.step] at h
    split at h
    · simp only [Option.some.injEq] at h
      subst h
      exact ⟨hu, hni, hst⟩
    · cases h
  | deleteUpdate k =>
    simp only [Sys.step] at h
    split at h
    · simp only [Option.some.injEq] at h
      subst h
      refine ⟨hu, hni, ?_⟩
      show (s.db.setEmoteStatus k EmoteStatus.Deleted).statusOf id = _
      by_cases hk : k = id
      · subst hk
        rw [statusOf_setEmoteStatus_eq, hst]; rfl
      · rw [statusOf_setEmoteStatus_ne _ _ _ _ hk]; exact hst
    · cases h

theorem Sys.run_inv (acts : List Action) :
    ∀ (s s1 : Sys), s.Inv → s.run acts = some s1 → s1.Inv := by
  induction acts with
  | nil => intro s s1 hi h; simp only [Sys.run, Option.some.injEq] at h; exact h ▸ hi
  | cons a rest ih =>
    intro s s1 hi h
    simp only [Sys.run] at h
    cases hs : s.step a with
    | none => rw [hs] at h; cases h
    | some s2 =>
      rw [hs] at h
      exact ih s2 s1 (Sys.step_inv s s2 a hi hs) h

theorem Sys.run_settled (id : ObjectID) (acts : List Action) :
    ∀ (s s1 : Sys), s.Inv → s.Settled id → s.run acts = some s1 → s1.Settled id := by
  induction acts with
  | nil => intro s s1 _ hq h; simp only [Sys.run, Option.some.injEq] at h; exact h ▸ hq
  | cons a rest ih =>
    intro s s1 hi hq h
    simp only [Sys.run] at h
    cases hs : s.step a with
    | none => rw [hs] at h; cases h
    | some s2 =>
      rw [hs] at h
      exact ih s2 s1 (Sys.step_inv s s2 a hi hs) (Sys.step_settled id s s2 a hi hq hs) h

theorem Sys.run_quiet (id : ObjectID) (acts : List Action) :
    ∀ (s s1 : Sys), s.Quiet id → s.run acts = some s1 → s1.Quiet id := by
  induction acts with
  | nil => intro s s1 hq h; simp only [Sys.run, Option.some.injEq] at h; exact h ▸ hq
  | cons a rest ih =>
    intro s s1 hq h
    simp only [Sys.run] at h
    cases hs : s.step a with
    | none => rw [hs] at h; cases h
    | some s2 =>
      rw [hs] at h
      exact ih s2 s1 (Sys.step_quiet id s s2 a hq hs) h

theorem Sys.empty_inv : Sys.empty.Inv :=
  ⟨List.nodup_nil, fun d hd => by cases hd⟩

theorem Sys.used_of_status (s : Sys) (id : ObjectID) (st : EmoteStatus) (hi : s.Inv)
    (h : s.db.statusOf id = some st) : id ∈ s.used := by
  unfold DB.statusOf at h
  cases hf : s.db.emotes.find? fun d => decide (d.key = DocID.oid id) with
  | none => rw [hf] at h; cases h
  | some d =>
    have hk : d.key = DocID.oid id := by simpa using List.find?_some hf
    obtain ⟨k, hku, hkey⟩ := hi.2 d (List.mem_of_find?_eq_some hf)
    have : k = id := DocID.oid.inj (hkey.symm.trans hk)
    exact this ▸ hku

/-- C3, as stated, fails: an emote deleted while its ingest run is still
uploading (the find of `DeleteEmote` accepts a record in Processing) is Deleted
after the update of `DeleteEmote` and Live after the update of the ingest run,
which filters on the `_id` alone. -/
theorem deletion_not_terminal_while_ingesting :
    ¬ ∀ (acts1 acts2 : List Action) (s1 s2 : Sys) (id : ObjectID),
        Sys.empty.run acts1 = some s1 → s1.db.statusOf id = some EmoteStatus.Deleted →
        s1.run acts2 = some s2 →
        s2.db.statusOf id ≠ some EmoteStatus.Processing ∧
          s2.db.statusOf id ≠ some EmoteStatus.Live := by
  intro h
  have h1 : Sys.empty.run deleteDuringIngest = some deletedWhileIngesting := by decide
  have hd : deletedWhileIngesting.db.statusOf 7 = some EmoteStatus.Deleted := by decide
  have h2 : deletedWhileIngesting.run [Action.ingestLive 7] = some liveAfterDelete := by decide
  have hl : liveAfterDelete.db.statusOf 7 = some EmoteStatus.Live := by decide
  exact (h deleteDuringIngest [Action.ingestLive 7] _ _ 7 h1 hd h2).2 hl

/-- C3, amended: in every interleaving of the store writes of ingest runs and
`DeleteEmote` calls, starting from the empty store, a record whose status has
become Deleted never afterwards has status Processing; and if no ingest run for
that record is still pending when it is Deleted, its status is Deleted in every
later state (never Live). -/
theorem deletion_terminal_after_ingest (acts1 acts2 : List Action) (s1 s2 : Sys) (id : ObjectID)
    (h1 : Sys.empty.run acts1 = some s1)
    (hdel : s1.db.statusOf id = some EmoteStatus.Deleted)
    (h2 : s1.run acts2 = some s2) :
    s2.db.statusOf id ≠ some EmoteStatus.Processing ∧
      (id ∉ s1.ingesting → s2.db.statusOf id = some EmoteStatus.Deleted) := by
  have hi := Sys.run_inv acts1 _ _ Sys.empty_inv h1
  have hu := Sys.used_of_status s1 id _ hi hdel
  constructor
  · exact (Sys.run_settled id acts2 s1 s2 hi ⟨hu, by rw [hdel]; simp⟩ h2).2
  · intro hni
    exact (Sys.run_quiet id acts2 s1 s2 ⟨hu, hni, hdel⟩ h2).2.2

/-- Witness of `deletion_terminal_after_ingest`: an emote deleted after its
ingest run has ended stays Deleted through a further ingest run. -/
theorem deletion_terminal_after_ingest_witness :
    deletedAfterIngest.db.statusOf 7 = some EmoteStatus.Deleted ∧
      ((deletedAfterIngest.run laterIngest).getD Sys.empty).db.statusOf 7 =
        some EmoteStatus.Deleted :=
  ⟨by decide,
    (deletion_terminal_after_ingest deleteAfterIngest laterIngest deletedAfterIngest
      ((deletedAfterIngest.run laterIngest).getD Sys.empty) 7
      (by decide) (by decide) (by decide)).2 (by decide)⟩

/-! ## The response 201 of the ingest handler -/

theorem statusOf_insertEmote_self (db db1 : DB) (id : ObjectID) (e : Emote)
    (h : db.insertEmote (DocID.oid id) e = some db1) : db1.statusOf id = some e.Status := by
  have hfresh := insertEmote_fresh _ _ _ _ h
  unfold DB.insertEmote at h
  split at h
  · cases h
  · simp only [Option.some.injEq] at h
    subst h
    unfold DB.statusOf
    have hnone : db.emotes.find? (fun d => decide (d.key = DocID.oid id)) = none := by
      rw [List.find?_eq_none]
      intro d hd
      simpa using hfresh d hd
    simp [List.find?_append, hnone]

theorem setFirst_statusOf (db : DB) (id : ObjectID) (s0 s : EmoteStatus)
    (h : db.statusOf id = some s0) : (db.setEmoteStatus id s).statusOf id = some s := by
  unfold DB.statusOf DB.setEmoteStatus at *
  simp only
  rw [find_setFirst_eq]
  cases hf : db.emotes.find? fun d => decide (d.key = DocID.oid id) with
  | none => rw [hf] at h; cases h
  | some d => rfl

theorem commit_created (env : CreateEnv) (db : DB) (n : String) (c : ObjectID) (sz : Sizes)
    (h : (commit env db n c sz).status = 201) :
    ∃ id db1, env.InsertedID = DocID.oid id ∧
      db.insertEmote (DocID.oid id) (newEmote n c sz) = some db1 ∧
      (uploadAll env id 0 env.Files).2 = false ∧
      (commit env db n c sz).body = "\x7b\"status\":201,\"id\":\"" ++ Hex id ++ "\"\x7d" ∧
      (commit env db n c sz).trace =
        [Event.EmotesInsert (newEmote n c sz) (some (DocID.oid id))] ++
          (uploadAll env id 0 env.Files).1 ++
          [Event.EmotesSetStatus id EmoteStatus.Live, Event.Discord id] ∧
      (commit env db n c sz).db =
        if env.UpdateErr then db1 else db1.setEmoteStatus id EmoteStatus.Live := by
  cases hI : env.InsertErr with
  | true => simp [commit, hI] at h
  | false =>
    cases hdb : db.insertEmote env.InsertedID (newEmote n c sz) with
    | none => simp [commit, hI, hdb] at h
    | some db1 =>
      cases hid : env.InsertedID with
      | other raw =>
        have hc : (commit env db n c sz).status = 500 := by
          simp only [commit, hI, hdb, Bool.false_eq_true, ↓reduceIte]
          rw [hid]
        rw [hc] at h; cases h
      | oid _id =>
        cases herr : (uploadAll env _id 0 env.Files).2 with
        | true =>
          have hc : (commit env db n c sz).status = 500 := by
            simp only [commit, hI, hdb, Bool.false_eq_true, ↓reduceIte]
            rw [hid]
            simp only [herr, ↓reduceIte]
          rw [hc] at h; cases h
        | false =>
          have hc : commit env db n c sz =
              ⟨201, "\x7b\"status\":201,\"id\":\"" ++ Hex _id ++ "\"\x7d",
                [Event.EmotesInsert (newEmote n c sz) (some (DocID.oid _id))] ++
                  (uploadAll env _id 0 env.Files).1 ++
                  [Event.EmotesSetStatus _id EmoteStatus.Live, Event.Discord _id],
                if env.UpdateErr then db1 else db1.setEmoteStatus _id EmoteStatus.Live⟩ := by
            simp only [commit, hI, hdb, Bool.false_eq_true, ↓reduceIte]
            rw [hid]
            simp only [herr, Bool.false_eq_true, ↓reduceIte]
          rw [hid] at hdb
          exact ⟨_id, db1, rfl, hdb, herr, by rw [hc], by rw [hc], by rw [hc]⟩

/-- C14, as stated, fails: with every upload done and the update to Live
failing, the handler still returns 201 with the new identity, and the record is
left in Processing. -/
theorem CreateRoute_created_while_processing :
    (CreateRoute updateFailsEnv emptyDB).status = 201 ∧
      (CreateRoute updateFailsEnv emptyDB).body =
        "\x7b\"status\":201,\"id\":\"000000000000000000000007\"\x7d" ∧
      Event.EmotesSetStatus 7 EmoteStatus.Live ∈ (CreateRoute updateFailsEnv emptyDB).trace ∧
      (CreateRoute updateFailsEnv emptyDB).db.statusOf 7 = some EmoteStatus.Processing ∧
      ¬ ∀ (env : CreateEnv) (db : DB) (id : ObjectID),
          (CreateRoute env db).status = 201 → env.InsertedID = DocID.oid id →
          env.UpdateErr = false ∧ (CreateRoute env db).db.statusOf id = some EmoteStatus.Live := by
  refine ⟨by decide, by decide, by decide, by decide, fun h => ?_⟩
  have := (h updateFailsEnv emptyDB 7 (by decide) rfl).1
  cases this

/-- C14, amended: whenever the handler returns 201, the body carries the identity
the insert returned, the read and the upload of every tier succeeded, and the
update setting that record's status to Live was issued; if the update succeeded
the record is Live, and if it failed (which is only logged) the record is left as
inserted, in Processing. -/
theorem CreateRoute_created_means_update_issued (env : CreateEnv) (db : DB)
    (h : (CreateRoute env db).status = 201) :
    ∃ id db1 e, env.InsertedID = DocID.oid id ∧
      (CreateRoute env db).body = "\x7b\"status\":201,\"id\":\"" ++ Hex id ++ "\"\x7d" ∧
      e.Status = EmoteStatus.Processing ∧ db.insertEmote (DocID.oid id) e = some db1 ∧
      Event.EmotesInsert e (some (DocID.oid id)) ∈ (CreateRoute env db).trace ∧
      Event.EmotesSetStatus id EmoteStatus.Live ∈ (CreateRoute env db).trace ∧
      (∀ i, i < env.Files.length → env.ReadFileErr i = false ∧ env.UploadErr i = false) ∧
      (env.UpdateErr = false →
        (CreateRoute env db).db = db1.setEmoteStatus id EmoteStatus.Live ∧
        (CreateRoute env db).db.statusOf id = some EmoteStatus.Live) ∧
      (env.UpdateErr = true →
        (CreateRoute env db).db = db1 ∧
        (CreateRoute env db).db.statusOf id = some EmoteStatus.Processing) := by
  rcases CreateRoute_shape env db with hs | ⟨pre, post, n, c, sz, hr⟩
  · exact absurd h hs.2.2
  · have hm := mem_of_reachesCommit env db _ pre post n c sz hr
    obtain ⟨-, -, -, hst, hbody, hdb⟩ := hr
    obtain ⟨id, db1, hid, hins, hup, hb, htr, hd⟩ := commit_created env db n c sz (hst ▸ h)
    have hi : Event.EmotesInsert (newEmote n c sz) (some (DocID.oid id)) ∈
        (commit env db n c sz).trace := by
      rw [htr]; simp
    have hl : Event.EmotesSetStatus id EmoteStatus.Live ∈ (commit env db n c sz).trace := by
      rw [htr]; simp
    have hproc := statusOf_insertEmote_self db db1 id _ hins
    refine ⟨id, db1, newEmote n c sz, hid, hbody.trans hb, rfl, hins,
      (hm (Event.EmotesInsert _ _) rfl).mpr hi, (hm (Event.EmotesSetStatus _ _) rfl).mpr hl,
      ?_, fun hu => ?_, fun hu => ?_⟩
    · exact ((commit_spec env db n c sz _ _ hi).2.2.2 id EmoteStatus.Live hl).2.2.2
    · have : (CreateRoute env db).db = db1.setEmoteStatus id EmoteStatus.Live := by
        rw [hdb, hd, hu]; rfl
      exact ⟨this, by rw [this]; exact setFirst_statusOf db1 id _ _ hproc⟩
    · have : (CreateRoute env db).db = db1 := by
        rw [hdb, hd, hu]; rfl
      exact ⟨this, by rw [this]; exact hproc⟩

/-- Witness of `CreateRoute_created_means_update_issued`: a run in which
everything works. -/
theorem CreateRoute_created_means_update_issued_witness :
    ∃ id db1 e, (gifEnv canvasGif).InsertedID = DocID.oid id ∧
      (CreateRoute (gifEnv canvasGif) emptyDB).body =
        "\x7b\"status\":201,\"id\":\"" ++ Hex id ++ "\"\x7d" ∧
      e.Status = EmoteStatus.Processing ∧ emptyDB.insertEmote (DocID.oid id) e = some db1 ∧
      Event.EmotesInsert e (some (DocID.oid id)) ∈ (CreateRoute (gifEnv canvasGif) emptyDB).trace ∧
      Event.EmotesSetStatus id EmoteStatus.Live ∈ (CreateRoute (gifEnv canvasGif) emptyDB).trace ∧
      (∀ i, i < (gifEnv canvasGif).Files.length →
        (gifEnv canvasGif).ReadFileErr i = false ∧ (gifEnv canvasGif).UploadErr i = false) ∧
      ((gifEnv canvasGif).UpdateErr = false →
        (CreateRoute (gifEnv canvasGif) emptyDB).db = db1.setEmoteStatus id EmoteStatus.Live ∧
        (CreateRoute (gifEnv canvasGif) emptyDB).db.statusOf id = some EmoteStatus.Live) ∧
      ((gifEnv canvasGif).UpdateErr = true →
        (CreateRoute (gifEnv canvasGif) emptyDB).db = db1 ∧
        (CreateRoute (gifEnv canvasGif) emptyDB).db.statusOf id = some EmoteStatus.Processing) :=
  CreateRoute_created_means_update_issued (gifEnv canvasGif) emptyDB (by decide)

/-! ## `AddChannelEmote` -/

theorem privateRejects_eq_false_iff (emote : Emote) (channelID emoteID : ObjectID) :
    privateRejects emote channelID emoteID = false ↔
      (HasBits emote.Visibility EmoteVisibilityPrivate = true →
        Hex emote.OwnerID = Hex channelID ∧ Hex emoteID ∈ emote.SharedWith.map Hex) := by
  unfold privateRejects Contains
  cases HasBits emote.Visibility EmoteVisibilityPrivate <;> simp

/-- C10, the code at the failing inputs: the Live, private emote `7` is not in
any channel's list; its owner channel `1` is refused with the unknown-emote
error when the sharing list is empty, and the channel `5` is refused with it
although the sharing list holds `5`; neither call writes to the store. -/
theorem AddChannelEmote_private_refuses_owner_and_shared :
    (AddChannelEmote (quietChannelEnv ownerChannel) ownerAdds (privateDB [])).result =
        Except.error ResolverError.ErrUnknownEmote ∧
      (AddChannelEmote (quietChannelEnv ownerChannel) ownerAdds (privateDB [])).db = privateDB [] ∧
      (AddChannelEmote (quietChannelEnv friendChannel) friendAdds (privateDB [5])).result =
        Except.error ResolverError.ErrUnknownEmote ∧
      (AddChannelEmote (quietChannelEnv friendChannel) friendAdds (privateDB [5])).db =
        privateDB [5] :=
  ⟨by rfl, by decide, by rfl, by decide⟩

/-! ## `utils.IsPowerOfTwo` -/

theorem land_pred_eq_zero (u : Nat) (hu : 0 < u) (h : u &&& (u - 1) = 0) : ∃ k, u = 2 ^ k := by
  induction u using Nat.strong_induction_on with
  | _ u ih =>
    obtain ⟨b, m, rfl⟩ : ∃ b m, u = Nat.bit b m := ⟨_, _, (Nat.bit_decomp u).symm⟩
    cases b with
    | true =>
      have h1 : Nat.bit true m - 1 = Nat.bit false m := by simp [Nat.bit_val]
      rw [h1, Nat.land_bit, Nat.and_self] at h
      have hm : m = 0 := by
        simp only [Bool.and_false, Nat.bit_val, Bool.toNat_false] at h
        omega
      subst hm
      exact ⟨0, by simp [Nat.bit_val]⟩
    | false =>
      have hm : 0 < m := by
        simp only [Nat.bit_val, Bool.toNat_false] at hu
        omega
      have h1 : Nat.bit false m - 1 = Nat.bit true (m - 1) := by
        simp only [Nat.bit_val, Bool.toNat_false, Bool.toNat_true]
        omega
      rw [h1, Nat.land_bit] at h
      have h2 : m &&& (m - 1) = 0 := by
        simp only [Bool.and_true, Nat.bit_val, Bool.toNat_false] at h
        omega
      have hlt : m < Nat.bit false m := by
        simp only [Nat.bit_val, Bool.toNat_false]
        omega
      obtain ⟨k, hk⟩ := ih m hlt hm h2
      exact ⟨k + 1, by simp only [Nat.bit_val, Bool.toNat_false, hk, Nat.pow_succ]; omega⟩

theorem two_pow_land_pred (k : Nat) : 2 ^ k &&& (2 ^ k - 1) = 0 := by
  rw [Nat.and_pow_two_sub_one_eq_mod, Nat.mod_self]

theorem bits64_lt (z : Int) : bits64 z < 2 ^ 64 := by
  unfold bits64
  omega

theorem bits64_wrapInt64 (z : Int) : bits64 (wrapInt64 z) = bits64 z := by
  unfold bits64 wrapInt64
  omega

theorem bits64_pred (n : Int) (h : bits64 n ≠ 0) : bits64 (n - 1) = bits64 n - 1 := by
  unfold bits64 at *
  omega

theorem wrapInt64_natCast_eq_zero (x : Nat) (hx : x < 2 ^ 64) : wrapInt64 (x : Int) = 0 ↔ x = 0 := by
  unfold wrapInt64
  omega

theorem IsPowerOfTwo_iff_bits (n : Int) (hn : IsInt64 n) :
    IsPowerOfTwo n = true ↔ n ≠ 0 ∧ ∃ k, bits64 n = 2 ^ k := by
  unfold IsPowerOfTwo andInt64
  simp only [Bool.and_eq_true, bne_iff_ne, ne_eq, beq_iff_eq]
  constructor
  · rintro ⟨h0, h⟩
    refine ⟨h0, ?_⟩
    have hb : bits64 n ≠ 0 := by
      unfold bits64 IsInt64 at *
      omega
    rw [bits64_wrapInt64, bits64_pred n hb,
      wrapInt64_natCast_eq_zero _ (lt_of_le_of_lt Nat.and_le_left (bits64_lt n))] at h
    exact land_pred_eq_zero _ (Nat.pos_of_ne_zero hb) h
  · rintro ⟨h0, k, hk⟩
    refine ⟨h0, ?_⟩
    have hb : bits64 n ≠ 0 := by rw [hk]; positivity
    rw [bits64_wrapInt64, bits64_pred n hb,
      wrapInt64_natCast_eq_zero _ (lt_of_le_of_lt Nat.and_le_left (bits64_lt n)), hk]
    exact two_pow_land_pred k

theorem IsPowerOfTwo_iff (n : Int) (hn : IsInt64 n) :
    IsPowerOfTwo n = true ↔ (∃ k, k ≤ 62 ∧ n = 2 ^ k) ∨ n = -(2 ^ 63) := by
  rw [IsPowerOfTwo_iff_bits n hn]
  constructor
  · rintro ⟨h0, k, hk⟩
    have hlt := bits64_lt n
    rw [hk] at hlt
    have hk63 : k < 64 := (Nat.pow_lt_pow_iff_right (by norm_num)).mp hlt
    by_cases hneg : n < 0
    · right
      have h1 : (bits64 n : Int) = n + 2 ^ 64 := by
        unfold bits64 IsInt64 at *
        omega
      have h2 : 2 ^ 63 ≤ bits64 n := by
        unfold bits64 IsInt64 at *
        omega
      rw [hk] at h2
      have hk2 : 63 ≤ k := (Nat.pow_le_pow_iff_right (by norm_num)).mp h2
      have : k = 63 := by omega
      subst this
      rw [hk] at h1
      push_cast at h1
      omega
    · left
      have h1 : (bits64 n : Int) = n := by
        unfold bits64 IsInt64 at *
        omega
      have h2 : bits64 n < 2 ^ 63 := by
        unfold bits64 IsInt64 at *
        omega
      rw [hk] at h2
      have hk2 : k < 63 := (Nat.pow_lt_pow_iff_right (by norm_num)).mp h2
      refine ⟨k, by omega, ?_⟩
      rw [← h1, hk]
      push_cast
      rfl
  · rintro (⟨k, hk, rfl⟩ | rfl)
    · have hpos : (0 : Int) < 2 ^ k := by positivity
      have hlt : (2 : Int) ^ k < 2 ^ 63 := by
        have : (2 : Nat) ^ k < 2 ^ 63 := Nat.pow_lt_pow_right (by norm_num) (by omega)
        exact_mod_cast this
      refine ⟨by omega, k, ?_⟩
      have : ((bits64 (2 ^ k) : Nat) : Int) = ((2 ^ k : Nat) : Int) := by
        unfold bits64
        push_cast
        omega
      exact_mod_cast this
    · exact ⟨by decide, 63, by decide⟩

/-- C13, the code at the failing input: for the minimum value `-2^63`, which is
not a power of two, `n - 1` wraps to `2^63 - 1`, `n & (n - 1)` is `0`, and
`IsPowerOfTwo` returns true; it returns false for `0`, `-1` and `-8` and true
for `1`, `8` and `2^62`. -/
theorem IsPowerOfTwo_min_int64 :
    IsInt64 (-(2 ^ 63)) ∧ wrapInt64 (-(2 ^ 63) - 1) = 2 ^ 63 - 1 ∧
      andInt64 (-(2 ^ 63)) (2 ^ 63 - 1) = 0 ∧ IsPowerOfTwo (-(2 ^ 63)) = true ∧
      (¬ ∃ k : Nat, (-(2 ^ 63) : Int) = 2 ^ k) ∧
      IsPowerOfTwo 0 = false ∧ IsPowerOfTwo (-1) = false ∧ IsPowerOfTwo (-8) = false ∧
      IsPowerOfTwo 1 = true ∧ IsPowerOfTwo 8 = true ∧ IsPowerOfTwo (2 ^ 62) = true := by
  refine ⟨by decide, by decide, by decide, by decide, ?_, by decide, by decide, by decide,
    by decide, by decide, by decide⟩
  rintro ⟨k, hk⟩
  have : (0 : Int) < 2 ^ k := by positivity
  rw [← hk] at this
  exact absurd this (by decide)

end ServerGo
